import Mathlib

/-!
Verification of the `smon` Slurm dashboard against its specification.

The Python sources (`smon/slurm_client.py`, `smon/app.py`, `smon/widgets.py`,
`smon/main.py`) are shallowly embedded below.  Pure string-processing code is
translated to executable Lean functions over `String`/`List Char`; the external
command invocations (`run_cmd`, `which`) are passed in as explicit oracle
arguments, so that the control flow of the client operations can be stated and
proved as theorems.  Character-level primitives model the CPython string
operations used by the source (ASCII fragment, which covers every string the
program manipulates).
-/

set_option maxRecDepth 4096

/-! ## Python string primitives -/

/-- Whitespace characters recognised by Python `str.strip()` / `str.split()`
(ASCII fragment). -/
def pyWS (c : Char) : Bool :=
  c = ' ' || c = '\t' || c = '\n' || c = '\r' || c = '\x0b' || c = '\x0c'

/-- Python `str.strip()` on a character list. -/
def stripL (cs : List Char) : List Char :=
  ((cs.dropWhile pyWS).reverse.dropWhile pyWS).reverse

/-- Python `str.strip()`. -/
def pyStrip (s : String) : String := String.mk (stripL s.toList)

/-- Python `str.lower()` (ASCII fragment). -/
def pyLower (s : String) : String := String.mk (s.toList.map Char.toLower)

/-- Python `str.upper()` (ASCII fragment). -/
def pyUpper (s : String) : String := String.mk (s.toList.map Char.toUpper)

/-- Does the second list start with the first one? -/
def startsWithL : List Char → List Char → Bool
  | [], _ => true
  | _ :: _, [] => false
  | p :: ps, c :: cs => p = c && startsWithL ps cs

/-- Python substring containment `tok in cs` on character lists. -/
def hasSubL (tok : List Char) : List Char → Bool
  | [] => startsWithL tok []
  | c :: cs => startsWithL tok (c :: cs) || hasSubL tok cs

/-- Python substring containment `sub in s`. -/
def strContains (s sub : String) : Bool := hasSubL sub.toList s.toList

/-- Python `s.split(sep)` for a one-character separator (keeps empty pieces). -/
def splitOnCharL (sep : Char) : List Char → List (List Char)
  | [] => [[]]
  | c :: cs =>
    if c = sep then [] :: splitOnCharL sep cs
    else
      match splitOnCharL sep cs with
      | [] => [[c]]
      | t :: ts => (c :: t) :: ts

/-- Python `s.split(sep, 1)` for a one-character separator: the pieces before
and after the first occurrence, or `none` when the separator is absent. -/
def splitFirstL (sep : Char) : List Char → Option (List Char × List Char)
  | [] => none
  | c :: cs =>
    if c = sep then some ([], cs)
    else
      match splitFirstL sep cs with
      | none => none
      | some (a, b) => some (c :: a, b)

/-- Python `s.split(sep)` for a multi-character separator `s0 :: srest`,
implemented with explicit fuel (one unit per input character suffices). -/
def splitOnSubFuel (s0 : Char) (srest : List Char) : Nat → List Char → List (List Char)
  | _, [] => [[]]
  | 0, cs => [cs]
  | fuel + 1, c :: cs =>
    if startsWithL (s0 :: srest) (c :: cs) then
      [] :: splitOnSubFuel s0 srest fuel (cs.drop srest.length)
    else
      match splitOnSubFuel s0 srest fuel cs with
      | [] => [[c]]
      | t :: ts => (c :: t) :: ts

/-- Python `s.split(sep)` for a non-empty separator `s0 :: srest`. -/
def splitOnSubL (s0 : Char) (srest : List Char) (cs : List Char) : List (List Char) :=
  splitOnSubFuel s0 srest cs.length cs

/-- Python whitespace split `s.split(None, maxsplit)`: runs of whitespace
separate tokens, leading whitespace is skipped, and once `maxsplit` tokens
have been produced the remainder (leading whitespace removed) is a single
final token. -/
def pySplitWsL : Nat → List Char → List String
  | ms, cs =>
    match cs.dropWhile pyWS with
    | [] => []
    | c :: rest =>
      match ms with
      | 0 => [String.mk (c :: rest)]
      | m + 1 =>
        String.mk ((c :: rest).takeWhile (fun x => !(pyWS x))) ::
          pySplitWsL m ((c :: rest).dropWhile (fun x => !(pyWS x)))

/-- First token of Python `s.split()`, i.e. `s.split()[0]`; `none` models the
`IndexError` raised when the string is empty or all whitespace. -/
def firstWsToken (cs : List Char) : Option (List Char) :=
  match (cs.dropWhile pyWS).takeWhile (fun c => !(pyWS c)) with
  | [] => none
  | t => some t

/-! ## Python integer parsing (`int(str)`) -/

/-- Digit tail of a Python integer literal: after a digit has been consumed,
accepts further digits, with single underscores allowed between digits. -/
def digitsVal (acc : Nat) : List Char → Option Nat
  | [] => some acc
  | c :: cs =>
    if c.isDigit then digitsVal (acc * 10 + (c.toNat - 48)) cs
    else if c = '_' then
      match cs with
      | [] => none
      | c2 :: cs2 =>
        if c2.isDigit then digitsVal (acc * 10 + (c2.toNat - 48)) cs2 else none
    else none

/-- Nonempty digit sequence (with underscore grouping) to a natural number. -/
def pyIntDigits : List Char → Option Nat
  | [] => none
  | c :: cs => if c.isDigit then digitsVal (c.toNat - 48) cs else none

/-- Python `int(s)` on a character list: optional surrounding whitespace,
optional sign, digits with underscore grouping (ASCII fragment). Returns
`none` where CPython raises `ValueError`. -/
def pyIntL (cs : List Char) : Option Int :=
  match stripL cs with
  | [] => none
  | c :: rest =>
    if c = '+' then (pyIntDigits rest).map (fun n => (n : Int))
    else if c = '-' then (pyIntDigits rest).map (fun n => -(n : Int))
    else (pyIntDigits (c :: rest)).map (fun n => (n : Int))

/-- Python `int(s)`. -/
def pyInt (s : String) : Option Int := pyIntL s.toList

/-- Value of a plain digit string, used to state expected parsing results. -/
def digitsToNat (cs : List Char) : Nat :=
  cs.foldl (fun a c => a * 10 + (c.toNat - 48)) 0

/-! ## Regex search primitives

The source uses `re.search` with a handful of fixed patterns, all of the form
literal-prefix followed by `[\w\d]+` and/or `(\d+)`.  For these patterns the
engine's backtracking is vacuous (a maximal word-character run can only be
followed by `:` at its maximal extent), so leftmost search with maximal-munch
sub-matchers is an exact model. -/

/-- Regex word character `[\w\d]` (ASCII fragment). -/
def isWordChar (c : Char) : Bool := c.isAlphanum || c = '_'

/-- Leftmost `re.search`: try the literal prefix `lit` followed by matcher `m`
at every position, returning the first capture. -/
def searchFrom {α : Type} (lit : List Char) (m : List Char → Option α) : List Char → Option α
  | [] => if startsWithL lit [] then m [] else none
  | c :: cs =>
    match (if startsWithL lit (c :: cs) then m ((c :: cs).drop lit.length) else none) with
    | some r => some r
    | none => searchFrom lit m cs

/-- Matcher for `[\w\d]+:(\d+)` returning the digit capture. -/
def mWordColonDigits (after : List Char) : Option String :=
  let w := after.takeWhile isWordChar
  if w.isEmpty then none
  else
    match after.drop w.length with
    | ':' :: rest =>
      let d := rest.takeWhile Char.isDigit
      if d.isEmpty then none else some (String.mk d)
    | _ => none

/-- Matcher for `(\d+)` returning the digit capture. -/
def mDigits (after : List Char) : Option String :=
  let d := after.takeWhile Char.isDigit
  if d.isEmpty then none else some (String.mk d)

/-- Matcher for `([\w\d]+):\d+` returning the word capture. -/
def mTypeCapture (after : List Char) : Option String :=
  let w := after.takeWhile isWordChar
  if w.isEmpty then none
  else
    match after.drop w.length with
    | ':' :: rest =>
      if (rest.takeWhile Char.isDigit).isEmpty then none else some (String.mk w)
    | _ => none

/-! ## SlurmClient (smon/slurm_client.py) -/

namespace SlurmClient

/-- Reason keywords indicating pending state (`PENDING_REASONS`). -/
def PENDING_REASONS : List String :=
  ["Dependency", "Resources", "Priority", "QOSMaxJobsPerUserLimit", "AssocMaxJobsLimit"]

/-- Python `any(reason in nodelist for reason in PENDING_REASONS)`. -/
def hasPendingReason (s : String) : Bool :=
  PENDING_REASONS.any (fun r => strContains s r)

/-- `SlurmClient.count_nodes_from_nodelist`. -/
def count_nodes_from_nodelist (nodelist : String) : String :=
  if nodelist = "" ∨ pyStrip nodelist = "" then "0"
  else if hasPendingReason nodelist then "0"
  else toString ((((splitOnCharL ',' nodelist.toList).map stripL).filter (fun n => n ≠ [])).length)

/-- `SlurmClient.combine_nodelist_reason`.  The early returns of the source are
flattened into an if-chain with the same case order. -/
def combine_nodelist_reason (nodelist reason : String) : String :=
  if (nodelist ≠ "" ∧ pyStrip nodelist ≠ "") ∧ hasPendingReason nodelist = false then nodelist
  else if reason ≠ "" ∧ pyStrip reason ≠ "" ∧ reason ≠ "None" then reason
  else if nodelist ≠ "" ∧ pyStrip nodelist ≠ "" then nodelist
  else ""

/-- `SlurmClient.parse_time_to_seconds`.  `int(...)` failures (modelled by
`pyIntL` returning `none`) fall into the `except` branch returning `-1`. -/
def parse_time_to_seconds (time_str : String) : Int :=
  if time_str = "" ∨ time_str = "UNLIMITED" ∨ time_str = "INVALID" ∨
      time_str = "Partition_Limit" then -1
  else
    let cs := time_str.toList
    let dt : Option Int × List Char :=
      match splitFirstL '-' cs with
      | some (d, t) => (pyIntL d, t)
      | none => (some 0, cs)
    match dt.1 with
    | none => -1
    | some days =>
      match splitOnCharL ':' dt.2 with
      | [h, m, s] =>
        match pyIntL h, pyIntL m, pyIntL s with
        | some hv, some mv, some sv => days * 86400 + hv * 3600 + mv * 60 + sv
        | _, _, _ => -1
      | [m, s] =>
        match pyIntL m, pyIntL s with
        | some mv, some sv => days * 86400 + mv * 60 + sv
        | _, _ => -1
      | _ => -1

/-- `SlurmClient.parse_node_gpu_info`: patterns `gpu:[\w\d]+:(\d+)` then
`gpu:(\d+)`, with the `(null)` / `N/A` / empty guard. -/
def parse_node_gpu_info (gres : String) : String :=
  if gres = "" ∨ gres = "(null)" ∨ gres = "N/A" then "0"
  else
    match searchFrom ("gpu:".toList) mWordColonDigits gres.toList with
    | some d => d
    | none =>
      match searchFrom ("gpu:".toList) mDigits gres.toList with
      | some d => d
      | none => "0"

/-- `SlurmClient._parse_gpu_count` (TRES field): patterns
`gres/gpu:[\w\d]+:(\d+)`, `gres/gpu=(\d+)`, `gres/gpu:(\d+)` in order. -/
def parse_gpu_count (tres : String) : String :=
  if tres = "" ∨ tres = "N/A" then "0"
  else
    match searchFrom ("gres/gpu:".toList) mWordColonDigits tres.toList with
    | some d => d
    | none =>
      match searchFrom ("gres/gpu=".toList) mDigits tres.toList with
      | some d => d
      | none =>
        match searchFrom ("gres/gpu:".toList) mDigits tres.toList with
        | some d => d
        | none => "0"

/-- `SlurmClient._parse_gpu_type` (TRES field). -/
def parse_gpu_type (tres : String) : String :=
  if tres = "" ∨ tres = "N/A" then ""
  else
    match searchFrom ("gres/gpu:".toList) mTypeCapture tres.toList with
    | some w =>
      let gt := pyUpper w
      if strContains (pyLower gt) "h100" then "H100"
      else if strContains (pyLower gt) "a100" then "A100"
      else if strContains (pyLower gt) "v100" then "V100"
      else gt
    | none => if parse_gpu_count tres ≠ "0" then "H100" else ""

/-- Fixed column widths of the primary `squeue -O` format. -/
def squeueWidths : List Nat := [10, 12, 36, 10, 10, 50, 12, 14]

/-- Parts accumulated by the fixed-width loop in
`SlurmClient._parse_squeue_output_line` (one entry per declared width;
when `pos` has run past the line the entry is empty and `pos` stays put). -/
def fixedParts : List Nat → Nat → List Char → List String
  | [], _, _ => []
  | w :: ws, pos, cs =>
    if cs.length ≤ pos then "" :: fixedParts ws pos cs
    else String.mk (stripL ((cs.drop pos).take w)) :: fixedParts ws (pos + w) cs

/-- Final value of `pos` after the fixed-width loop. -/
def fixedPos : List Nat → Nat → List Char → Nat
  | [], pos, _ => pos
  | w :: ws, pos, cs =>
    if cs.length ≤ pos then fixedPos ws pos cs else fixedPos ws (pos + w) cs

/-- `SlurmClient._parse_squeue_output_line` on a character list: 8 fixed-width
columns, then `remaining.split(None, 2)`, then the `while len(parts) < 11`
padding loop (modelled by `List.replicate`). -/
def parse_squeue_output_lineL (cs : List Char) : List String :=
  let parts := fixedParts squeueWidths 0 cs
  let remaining := stripL (cs.drop (fixedPos squeueWidths 0 cs))
  if remaining.isEmpty then parts ++ ["", "", ""]
  else
    let p2 := parts ++ pySplitWsL 2 remaining
    p2 ++ List.replicate (11 - p2.length) ""

/-- `SlurmClient._parse_squeue_output_line`. -/
def parse_squeue_output_line (line : String) : List String :=
  parse_squeue_output_lineL line.toList

/-- Column names of the primary (fixed-width, TRES-bearing) job format. -/
def enhancedCols : List String :=
  ["JOBID", "PARTITION", "NAME", "USERNAME", "STATE", "TRES",
   "TimeUsed", "TimeLimit", "ReqNodes", "NodeList", "Reason"]

/-- Column names of the fallback pipe-delimited job format. -/
def basicCols : List String :=
  ["JOBID", "USER", "STATE", "TIME", "NODES", "PARTITION", "NAME",
   "NODELIST(REASON)", "CPUS", "MEM"]

/-- A parsed job record: the string-keyed row dictionary. -/
def JobRec : Type := List (String × String)

/-- Python `row.get(k, "")` / `row[k]` for the row dictionaries. -/
def rowLookup (row : List (String × String)) (k : String) : String :=
  ((row.find? (fun p => p.1 = k)).map Prod.snd).getD ""

/-- Row-building loop body of `SlurmClient.get_jobs`: skip blank lines, parse
according to the active format, skip rows with fewer than `len(cols) - 2`
fields, build the dictionary, and append the derived GPU fields. -/
def parseJobsOut (enhanced : Bool) (out : String) : List JobRec :=
  let cols := if enhanced then enhancedCols else basicCols
  (splitOnCharL '\n' out.toList).filterMap (fun lineCs =>
    if stripL lineCs = [] then none
    else
      let parts :=
        if enhanced then parse_squeue_output_lineL lineCs
        else (splitOnCharL '|' lineCs).map (fun p => String.mk (stripL p))
      if parts.length < cols.length - 2 then none
      else
        let row := cols.enum.map (fun p => (p.2, parts.getD p.1 ""))
        some (if enhanced then
            row ++ [("GPU_COUNT", parse_gpu_count (rowLookup row "TRES")),
                    ("GPU_TYPE", parse_gpu_type (rowLookup row "TRES"))]
          else row ++ [("GPU_COUNT", ""), ("GPU_TYPE", "")]))

/-- `SlurmClient._mock_jobs`. -/
def mock_jobs : List JobRec :=
  [[("JOBID", "12345"), ("PARTITION", "h100"), ("NAME", "train-resnet-50"),
    ("USERNAME", "alice"), ("STATE", "RUNNING"),
    ("TRES", "billing=8,cpu=16,gres/gpu:h100:4,mem=64G,node=1"),
    ("TimeUsed", "02:15:30"), ("TimeLimit", "24:00:00"), ("ReqNodes", "1"),
    ("NodeList", "DGX-H100-1"), ("GPU_COUNT", "4"), ("GPU_TYPE", "H100")],
   [("JOBID", "12346"), ("PARTITION", "a100"), ("NAME", "inference-bert-large"),
    ("USERNAME", "bob"), ("STATE", "PENDING"),
    ("TRES", "billing=2,cpu=8,gres/gpu:a100:2,mem=32G,node=1"),
    ("TimeUsed", "00:00:00"), ("TimeLimit", "12:00:00"), ("ReqNodes", "1"),
    ("NodeList", "(Resources)"), ("GPU_COUNT", "2"), ("GPU_TYPE", "H100")],
   [("JOBID", "12347"), ("PARTITION", "cpu"), ("NAME", "data-preprocessing"),
    ("USERNAME", "charlie"), ("STATE", "RUNNING"),
    ("TRES", "billing=4,cpu=32,mem=128G,node=1"),
    ("TimeUsed", "01:45:12"), ("TimeLimit", "06:00:00"), ("ReqNodes", "1"),
    ("NodeList", "DGX-H100-2"), ("GPU_COUNT", "0"), ("GPU_TYPE", "")]]

/-- `SlurmClient.get_jobs`: the command runner is abstracted into the results
of the primary and fallback `squeue` invocations `(returncode, stdout,
stderr)`; `hasSqueue` models `which("squeue")`.  The `RuntimeError` raise is
an `Except.error` carrying the message. -/
def get_jobs (hasSqueue : Bool) (primary fallback : Int × String × String) :
    Except String (List JobRec) :=
  if hasSqueue = false then .ok mock_jobs
  else if primary.1 ≠ 0 then
    if fallback.1 ≠ 0 then
      .error ("squeue failed: " ++
        (if pyStrip fallback.2.2 ≠ "" then pyStrip fallback.2.2 else "unknown error"))
    else .ok (parseJobsOut false fallback.2.1)
  else .ok (parseJobsOut true primary.2.1)

/-- Token `"StdOut="` searched for in the job detail text. -/
def stdoutTok : List Char := "StdOut=".toList

/-- Token `"StdErr="` searched for in the job detail text. -/
def stderrTok : List Char := "StdErr=".toList

/-- One iteration of the path-extraction loop of
`SlurmClient.get_job_output_paths`: `line.split(tok)[1].split()[0]`, with the
potential `IndexError` modelled as an `Except.error`. -/
def pathsStep (st : String × String) (line : List Char) : Except String (String × String) :=
  if hasSubL stdoutTok line then
    match (splitOnSubL 'S' ("tdOut=".toList) line).get? 1 with
    | none => .error "IndexError"
    | some after =>
      match firstWsToken after with
      | none => .error "IndexError"
      | some t => .ok (String.mk t, st.2)
  else if hasSubL stderrTok line then
    match (splitOnSubL 'S' ("tdErr=".toList) line).get? 1 with
    | none => .error "IndexError"
    | some after =>
      match firstWsToken after with
      | none => .error "IndexError"
      | some t => .ok (st.1, String.mk t)
  else .ok st

/-- `SlurmClient.get_job_output_paths` given a pre-fetched detail string;
`hasScontrol` models `which("scontrol")`. -/
def get_job_output_paths (hasScontrol : Bool) (detail : String) :
    Except String (String × String) :=
  if hasScontrol = false then .ok ("", "")
  else (splitOnCharL '\n' detail.toList).foldlM pathsStep ("", "")

/-- `SlurmClient._read_output_file`: `tailRes fp` is the `(returncode, stdout,
stderr)` of `tail -n {lines} {fp}`.  Returns the produced content together
with the list of files actually read (empty when the guard short-circuits). -/
def read_output_file (tailRes : String → Int × String × String) (filepath : String) :
    String × List String :=
  if filepath = "" ∨ filepath = "/dev/null" then ("", [])
  else
    let r := tailRes filepath
    ((if r.1 = 0 then r.2.1 else "Could not read file: " ++ r.2.2), [filepath])

/-- `SlurmClient.get_job_output` with a pre-fetched detail string: resolves the
paths, short-circuits to the mock pair when both are empty, otherwise reads
both files.  The result carries the list of files read; the `full` flag only
selects the line count of the `tail` command and is irrelevant here. -/
def get_job_output (hasScontrol : Bool) (detail : String)
    (tailRes : String → Int × String × String) :
    Except String ((String × String) × List String) :=
  match get_job_output_paths hasScontrol detail with
  | .error e => .error e
  | .ok (so, se) =>
    if so = "" ∧ se = "" then
      .ok (("Mock stdout output for testing", "Mock stderr output for testing"), [])
    else
      let r1 := read_output_file tailRes so
      let r2 := read_output_file tailRes se
      .ok ((r1.1, r2.1), r1.2 ++ r2.2)

end SlurmClient

/-! ## SlurmDashboard (smon/app.py) -/

namespace SlurmDashboard

/-- Length of the `_GPU_GRES_PATTERN` alternative matching at the head of
`cs`: `\((?:IDX|S):` is `"(IDX:"` (5 chars) or `"(S:"` (3 chars). -/
def gresMarkerLen (cs : List Char) : Option Nat :=
  if startsWithL ("(IDX:".toList) cs then some 5
  else if startsWithL ("(S:".toList) cs then some 3
  else none

/-- `re.sub(_GPU_GRES_PATTERN, "", ...)` with explicit fuel: at each position,
if `\((?:IDX|S):[^)]*\)` matches (marker head and a closing parenthesis
somewhere after it), drop through the first `)` and continue after the match,
else keep the character.  One unit of fuel per input character suffices. -/
def stripGresFuel : Nat → List Char → List Char
  | _, [] => []
  | 0, cs => cs
  | fuel + 1, c :: cs =>
    match gresMarkerLen (c :: cs) with
    | some k =>
      let rest := (c :: cs).drop k
      if rest.any (fun x => x = ')') then
        stripGresFuel fuel ((rest.dropWhile (fun x => x ≠ ')')).drop 1)
      else c :: stripGresFuel fuel cs
    | none => c :: stripGresFuel fuel cs

/-- Removal of all `(IDX:...)` / `(S:...)` suffix groups from a GRES string. -/
def stripGresParen (cs : List Char) : List Char := stripGresFuel cs.length cs

/-- `SlurmDashboard._parse_gpu_count` (node GRES string): strip the
parenthesised index groups, split on `:`, return the last all-digit field. -/
def parse_gpu_count (gres : String) : Int :=
  if gres = "" ∨ gres = "(null)" ∨ gres = "-" ∨ gres = "N/A" then 0
  else
    let parts := splitOnCharL ':' (stripGresParen gres.toList)
    match parts.reverse.find? (fun p => !p.isEmpty && p.all Char.isDigit) with
    | some p => (digitsToNat p : Int)
    | none => 0

/-! ### Sort engine

`SlurmDashboard._sort_key` for the integer columns (`GPUs`, `CPUS`, `Nodes`)
produces the Python tuple `(0, int(text))` or `(1, text.lower())`; tuples with
tag 0 always compare below tuples with tag 1.  `DataTable.sort` sorts rows
with Python's stable `sorted(key=..., reverse=...)`; a stable insertion sort
with the corresponding boolean comparator has identical semantics (equal keys
keep their original relative order, also when `reverse=True`). -/

/-- Sort key of `_sort_key` for an integer column. -/
inductive SKey where
  | num : Int → SKey
  | str : String → SKey
deriving DecidableEq

/-- Lexicographic comparison of character lists by code point (Python string
comparison). -/
def charLE : List Char → List Char → Bool
  | [], _ => true
  | _ :: _, [] => false
  | a :: as, b :: bs => if a < b then true else if b < a then false else charLE as bs

/-- Comparison of sort keys: `(0, int)` tuples below `(1, str)` tuples. -/
def skeyLE : SKey → SKey → Bool
  | .num a, .num b => a ≤ b
  | .num _, .str _ => true
  | .str _, .num _ => false
  | .str a, .str b => charLE a.toList b.toList

/-- `SlurmDashboard._sort_key` for the integer columns: strip, try `int`,
else fall back to the lowercased text. -/
def sort_key (text : String) : SKey :=
  match pyInt (pyStrip text) with
  | some n => .num n
  | none => .str (pyLower (pyStrip text))

/-- Does the cell text parse as an integer (tag-0 sort key)? -/
def isNumCell (text : String) : Bool := (pyInt (pyStrip text)).isSome

/-- Ascending row comparison. -/
def leAsc (a b : String) : Bool := skeyLE (sort_key a) (sort_key b)

/-- Descending row comparison (`reverse=True`): earlier rows keep priority on
equal keys, larger keys come first. -/
def leDesc (a b : String) : Bool := skeyLE (sort_key b) (sort_key a)

/-- Stable insertion into a sorted list: the new element goes before the first
element it compares `le` to. -/
def insertLE {α : Type} (le : α → α → Bool) (a : α) : List α → List α
  | [] => [a]
  | b :: bs => if le a b then a :: b :: bs else b :: insertLE le a bs

/-- Stable insertion sort (same result as Python's stable `sorted`). -/
def stableSort {α : Type} (le : α → α → Bool) : List α → List α
  | [] => []
  | a :: as => insertLE le a (stableSort le as)

/-- Sorting an integer column of the jobs table: each row is represented by
its cell text in the sorted column; `reverse` is the sort direction flag
(`True` is the initial direction for numeric columns). -/
def sortColumn (reverse : Bool) (rows : List String) : List String :=
  if reverse then stableSort leDesc rows else stableSort leAsc rows

end SlurmDashboard

/-! ## Filter (smon/widgets.py) -/

namespace Widgets

/-- The `Filter` object: free-text plus optional user / partition / state. -/
structure Filter where
  text : String
  user : Option String
  partition : Option String
  state : Option String

/-- A job row dictionary, as consumed by `Filter.apply_jobs`. -/
def Rec : Type := List (String × String)

/-- Python `r.get(k, "")`. -/
def getField (r : Rec) (k : String) : String :=
  ((r.find? (fun p => p.1 = k)).map Prod.snd).getD ""

/-- User pass predicate: `(r.get("USERNAME","") or r.get("USER","")).lower()
== self.user.lower()`. -/
def userPred (u : String) (r : Rec) : Bool :=
  pyLower (if getField r "USERNAME" ≠ "" then getField r "USERNAME" else getField r "USER")
    = pyLower u

/-- Partition pass predicate: case-insensitive substring. -/
def partitionPred (p : String) (r : Rec) : Bool :=
  strContains (pyLower (getField r "PARTITION")) (pyLower p)

/-- State pass predicate: case-insensitive substring. -/
def statePred (st : String) (r : Rec) : Bool :=
  strContains (pyLower (getField r "STATE")) (pyLower st)

/-- Free-text pass predicate: the lowered pattern occurs in some value. -/
def textPred (t : String) (r : Rec) : Bool :=
  r.any (fun kv => strContains (pyLower kv.2) (pyLower t))

/-- The `if self.user: res = [...]` narrowing step of `apply_jobs`. -/
def userPass (f : Filter) (res : List Rec) : List Rec :=
  match f.user with
  | some u => if u ≠ "" then res.filter (userPred u) else res
  | none => res

/-- The `if self.partition: res = [...]` narrowing step of `apply_jobs`. -/
def partitionPass (f : Filter) (res : List Rec) : List Rec :=
  match f.partition with
  | some p => if p ≠ "" then res.filter (partitionPred p) else res
  | none => res

/-- The `if self.state: res = [...]` narrowing step of `apply_jobs`. -/
def statePass (f : Filter) (res : List Rec) : List Rec :=
  match f.state with
  | some st => if st ≠ "" then res.filter (statePred st) else res
  | none => res

/-- The `if self.text: res = [...]` narrowing step of `apply_jobs`. -/
def textPass (f : Filter) (res : List Rec) : List Rec :=
  if f.text ≠ "" then res.filter (textPred f.text) else res

/-- `Filter.apply_jobs`: the four sequential narrowing passes, each skipped
when its field is unset/empty (Python truthiness). -/
def apply_jobs (f : Filter) (rows : List Rec) : List Rec :=
  textPass f (statePass f (partitionPass f (userPass f rows)))

/-- The user pass as a total predicate (true when the filter is inactive). -/
def gatedUser (f : Filter) (r : Rec) : Bool :=
  match f.user with
  | some u => if u ≠ "" then userPred u r else true
  | none => true

/-- The partition pass as a total predicate. -/
def gatedPartition (f : Filter) (r : Rec) : Bool :=
  match f.partition with
  | some p => if p ≠ "" then partitionPred p r else true
  | none => true

/-- The state pass as a total predicate. -/
def gatedState (f : Filter) (r : Rec) : Bool :=
  match f.state with
  | some st => if st ≠ "" then statePred st r else true
  | none => true

/-- The free-text pass as a total predicate. -/
def gatedText (f : Filter) (r : Rec) : Bool :=
  if f.text ≠ "" then textPred f.text r else true

/-- The four passes of `apply_jobs`, in source order. -/
def passes (f : Filter) : List (Rec → Bool) :=
  [gatedUser f, gatedPartition f, gatedState f, gatedText f]

/-- Sequential application of a list of filter passes. -/
def seqFilter (rows : List Rec) (ps : List (Rec → Bool)) : List Rec :=
  ps.foldl (fun acc p => acc.filter p) rows

/-- The conjunction of all four pass predicates. -/
def conjPred (f : Filter) (r : Rec) : Bool :=
  gatedUser f r && gatedPartition f r && gatedState f r && gatedText f r

end Widgets

/-! ## CLI entry point (smon/main.py) -/

namespace SmonMain

/-- Keyword parameters accepted by `SlurmDashboard.__init__` (all are
keyword-only with defaults; there is no `**kwargs`). -/
def dashboardInitParams : List String :=
  ["refresh_sec", "user", "partition", "gpustat_web_url"]

/-- Keyword arguments passed by `main()` when constructing `SlurmDashboard`
(the `mock_mode=args.mock` argument is passed on every invocation, with the
mock flag set or not). -/
def mainCallKwargs : List String :=
  ["refresh_sec", "user", "partition", "gpustat_web_url", "mock_mode"]

/-- Python keyword binding: a call with keyword arguments `call` against a
function whose keyword parameters (all defaulted) are `params` succeeds iff
every passed keyword is accepted; otherwise it raises `TypeError`. -/
def pyKwCallOk (params call : List String) : Bool :=
  call.all (fun k => params.contains k)

end SmonMain

/-! ## Spec-side shape predicates (for comparison with the specified time
grammar `D-HH:MM:SS` / `HH:MM:SS` / `MM:SS`) -/

/-- A nonempty all-digit character list. -/
def isDigitsL (cs : List Char) : Bool := !cs.isEmpty && cs.all Char.isDigit

/-- Shape `MM:SS`: exactly two digit fields separated by a colon. -/
def shapeMMSS (s : String) : Bool :=
  match splitOnCharL ':' s.toList with
  | [m, c2] => isDigitsL m && isDigitsL c2
  | _ => false

/-- Shape `HH:MM:SS`: exactly three digit fields separated by colons. -/
def shapeHHMMSS (s : String) : Bool :=
  match splitOnCharL ':' s.toList with
  | [h, m, c2] => isDigitsL h && isDigitsL m && isDigitsL c2
  | _ => false

/-- Shape `D-HH:MM:SS`: a digit day field, a dash, three digit fields. -/
def shapeDHHMMSS (s : String) : Bool :=
  match splitFirstL '-' s.toList with
  | some (d, t) =>
    isDigitsL d &&
      (match splitOnCharL ':' t with
       | [h, m, c2] => isDigitsL h && isDigitsL m && isDigitsL c2
       | _ => false)
  | none => false

/-- Any of the three well-formed time shapes of the specification. -/
def timeShapeAny (s : String) : Bool := shapeDHHMMSS s || shapeHHMMSS s || shapeMMSS s

/-- The literal sentinel time strings mapped to `-1`. -/
def specialTime (s : String) : Bool :=
  s = "" || s = "UNLIMITED" || s = "INVALID" || s = "Partition_Limit"

/-- Field check of the relaxed (Python `int`-based) time grammar actually
accepted by the implementation: two or three colon fields, each parseable by
Python `int`. -/
def relaxedTimeFields (t : List Char) : Bool :=
  match splitOnCharL ':' t with
  | [h, m, s] => (pyIntL h).isSome && (pyIntL m).isSome && (pyIntL s).isSome
  | [m, s] => (pyIntL m).isSome && (pyIntL s).isSome
  | _ => false

/-- The relaxed time grammar accepted by the implementation: optional day part
before the first dash (Python `int`-parseable), then two or three Python
`int`-parseable colon fields. -/
def relaxedTimeOk (s : String) : Bool :=
  match splitFirstL '-' s.toList with
  | some (d, t) => (pyIntL d).isSome && relaxedTimeFields t
  | none => relaxedTimeFields s.toList

/-! ## General helper lemmas -/

theorem dropWhile_eq_self_of_all {p : Char → Bool} :
    ∀ {cs : List Char}, (∀ c ∈ cs, p c = false) → cs.dropWhile p = cs
  | [], _ => rfl
  | c :: cs, h => by
    have hc : p c = false := h c (List.mem_cons_self c cs)
    simp [List.dropWhile_cons, hc]

theorem stripL_eq_self {cs : List Char} (h : ∀ c ∈ cs, pyWS c = false) : stripL cs = cs := by
  unfold stripL
  rw [dropWhile_eq_self_of_all h, dropWhile_eq_self_of_all, List.reverse_reverse]
  intro c hc
  exact h c (List.mem_reverse.mp hc)

theorem char_ne_of_isDigit {c d : Char} (h : c.isDigit = true) (hd : d.isDigit = false) :
    c ≠ d := by
  intro he
  subst he
  exact (by decide : (true : Bool) ≠ false) (h.symm.trans hd)

theorem pyWS_of_isDigit {c : Char} (h : c.isDigit = true) : pyWS c = false := by
  simp only [pyWS, Bool.or_eq_false_iff, decide_eq_false_iff_not]
  exact ⟨⟨⟨⟨⟨char_ne_of_isDigit h (by decide), char_ne_of_isDigit h (by decide)⟩,
    char_ne_of_isDigit h (by decide)⟩, char_ne_of_isDigit h (by decide)⟩,
    char_ne_of_isDigit h (by decide)⟩, char_ne_of_isDigit h (by decide)⟩

theorem isWordChar_of_isDigit {c : Char} (h : c.isDigit = true) : isWordChar c = true := by
  simp [isWordChar, Char.isAlphanum, h]

theorem takeWhile_append_all {p : Char → Bool} :
    ∀ {a : List Char} (b : List Char), (∀ c ∈ a, p c = true) →
      (a ++ b).takeWhile p = a ++ b.takeWhile p
  | [], _, _ => rfl
  | c :: a, b, h => by
    have hc : p c = true := h c (List.mem_cons_self c a)
    simp only [List.cons_append, List.takeWhile_cons, hc, if_true]
    rw [takeWhile_append_all b (fun x hx => h x (List.mem_cons_of_mem _ hx))]

theorem dropWhile_append_all {p : Char → Bool} :
    ∀ {a : List Char} (b : List Char), (∀ c ∈ a, p c = true) →
      (a ++ b).dropWhile p = b.dropWhile p
  | [], _, _ => rfl
  | c :: a, b, h => by
    have hc : p c = true := h c (List.mem_cons_self c a)
    simp only [List.cons_append, List.dropWhile_cons, hc, if_true]
    exact dropWhile_append_all b (fun x hx => h x (List.mem_cons_of_mem _ hx))

theorem takeWhile_eq_self_of_all {p : Char → Bool} :
    ∀ {a : List Char}, (∀ c ∈ a, p c = true) → a.takeWhile p = a
  | [], _ => rfl
  | c :: a, h => by
    have hc : p c = true := h c (List.mem_cons_self c a)
    simp only [List.takeWhile_cons, hc, if_true]
    rw [takeWhile_eq_self_of_all (fun x hx => h x (List.mem_cons_of_mem _ hx))]

theorem startsWithL_append_self : ∀ (a b : List Char), startsWithL a (a ++ b) = true
  | [], _ => rfl
  | c :: a, b => by simp [startsWithL, startsWithL_append_self a b]

theorem startsWithL_refl (a : List Char) : startsWithL a a = true := by
  have h := startsWithL_append_self a []
  rwa [List.append_nil] at h

theorem exists_of_startsWithL :
    ∀ {tok cs : List Char}, startsWithL tok cs = true → ∃ rest, cs = tok ++ rest
  | [], cs, _ => ⟨cs, rfl⟩
  | t :: tok, [], h => by simp [startsWithL] at h
  | t :: tok, c :: cs, h => by
    simp only [startsWithL, Bool.and_eq_true, decide_eq_true_eq] at h
    obtain ⟨rest, hr⟩ := exists_of_startsWithL h.2
    exact ⟨rest, by rw [h.1, hr]; rfl⟩

theorem startsWithL_extend {tok p : List Char} (h : startsWithL tok p = true)
    (rest : List Char) : startsWithL tok (p ++ rest) = true := by
  obtain ⟨r, hr⟩ := exists_of_startsWithL h
  subst hr
  rw [List.append_assoc]
  exact startsWithL_append_self tok (r ++ rest)

theorem hasSubL_of_startsWith {tok cs : List Char} (h : startsWithL tok cs = true) :
    hasSubL tok cs = true := by
  cases cs <;> simp [hasSubL, h]

theorem hasSubL_cons_of {tok : List Char} (c : Char) {cs : List Char}
    (h : hasSubL tok cs = true) : hasSubL tok (c :: cs) = true := by
  simp [hasSubL, h]

theorem hasSubL_append_left {tok : List Char} :
    ∀ (a : List Char) {b : List Char}, hasSubL tok b = true → hasSubL tok (a ++ b) = true
  | [], _, h => h
  | c :: a, _, h => hasSubL_cons_of c (hasSubL_append_left a h)

theorem hasSubL_self_append (tok b : List Char) : hasSubL tok (tok ++ b) = true :=
  hasSubL_of_startsWith (startsWithL_append_self tok b)

theorem strMk_toList (s : String) : String.mk s.toList = s := by cases s; rfl

theorem toList_append (s t : String) : (s ++ t).toList = s.toList ++ t.toList := by
  cases s; cases t; rfl

theorem str_ne_of_toList_ne {s t : String} (h : s.toList ≠ t.toList) : s ≠ t :=
  fun he => h (he ▸ rfl)

theorem splitOnCharL_ne_nil (sep : Char) : ∀ cs, splitOnCharL sep cs ≠ [] := by
  intro cs
  unfold splitOnCharL
  split
  · simp
  · split
    · simp
    · split <;> simp

theorem splitOnCharL_of_no_sep {sep : Char} :
    ∀ {cs : List Char}, (∀ c ∈ cs, c ≠ sep) → splitOnCharL sep cs = [cs]
  | [], _ => rfl
  | c :: cs, h => by
    have hc : c ≠ sep := h c (List.mem_cons_self c cs)
    have ih := splitOnCharL_of_no_sep (fun x hx => h x (List.mem_cons_of_mem _ hx))
    simp [splitOnCharL, hc, ih]

theorem splitOnCharL_append {sep : Char} :
    ∀ {a : List Char} (b : List Char), (∀ c ∈ a, c ≠ sep) →
      splitOnCharL sep (a ++ sep :: b) = a :: splitOnCharL sep b
  | [], b, _ => by simp [splitOnCharL]
  | c :: a, b, h => by
    have hc : c ≠ sep := h c (List.mem_cons_self c a)
    have ih := splitOnCharL_append b (fun x hx => h x (List.mem_cons_of_mem _ hx))
    simp [splitOnCharL, hc, ih]

theorem splitFirstL_of_no_sep {sep : Char} :
    ∀ {cs : List Char}, (∀ c ∈ cs, c ≠ sep) → splitFirstL sep cs = none
  | [], _ => rfl
  | c :: cs, h => by
    have hc : c ≠ sep := h c (List.mem_cons_self c cs)
    have ih := splitFirstL_of_no_sep (fun x hx => h x (List.mem_cons_of_mem _ hx))
    simp [splitFirstL, hc, ih]

theorem splitFirstL_append {sep : Char} :
    ∀ {a : List Char} (b : List Char), (∀ c ∈ a, c ≠ sep) →
      splitFirstL sep (a ++ sep :: b) = some (a, b)
  | [], b, _ => by simp [splitFirstL]
  | c :: a, b, h => by
    have hc : c ≠ sep := h c (List.mem_cons_self c a)
    have ih := splitFirstL_append b (fun x hx => h x (List.mem_cons_of_mem _ hx))
    simp [splitFirstL, hc, ih]

theorem digitsVal_all :
    ∀ {cs : List Char} (acc : Nat), (∀ c ∈ cs, c.isDigit = true) →
      digitsVal acc cs = some (cs.foldl (fun a c => a * 10 + (c.toNat - 48)) acc)
  | [], _, _ => rfl
  | c :: cs, acc, h => by
    have hc : c.isDigit = true := h c (List.mem_cons_self c cs)
    have ih := @digitsVal_all cs (acc * 10 + (c.toNat - 48))
      (fun x hx => h x (List.mem_cons_of_mem _ hx))
    rw [digitsVal.eq_def]
    simp [hc, ih]

theorem pyIntDigits_all {cs : List Char} (hne : cs ≠ []) (h : ∀ c ∈ cs, c.isDigit = true) :
    pyIntDigits cs = some (digitsToNat cs) := by
  cases cs with
  | nil => exact absurd rfl hne
  | cons c cs =>
    have hc : c.isDigit = true := h c (List.mem_cons_self c cs)
    simp only [pyIntDigits, hc, if_true,
      digitsVal_all _ (fun x hx => h x (List.mem_cons_of_mem _ hx)),
      digitsToNat, List.foldl_cons, Nat.zero_mul, Nat.zero_add]

theorem pyIntL_digits {cs : List Char} (hne : cs ≠ []) (h : ∀ c ∈ cs, c.isDigit = true) :
    pyIntL cs = some ((digitsToNat cs : Nat) : Int) := by
  unfold pyIntL
  rw [stripL_eq_self (fun c hc => pyWS_of_isDigit (h c hc))]
  cases cs with
  | nil => exact absurd rfl hne
  | cons c cs =>
    have hc : c.isDigit = true := h c (List.mem_cons_self c cs)
    have h1 : c ≠ '+' := char_ne_of_isDigit hc (by decide)
    have h2 : c ≠ '-' := char_ne_of_isDigit hc (by decide)
    simp [h1, h2, pyIntDigits_all (by simp) h]

theorem searchFrom_pos0 {α : Type} {lit : List Char} {m : List Char → Option α}
    {cs : List Char} {r : α} (h : startsWithL lit cs = true)
    (hm : m (cs.drop lit.length) = some r) : searchFrom lit m cs = some r := by
  cases cs with
  | nil => simp_all [searchFrom]
  | cons c cs => simp [searchFrom, h, hm]

theorem startsWithL_false_of_head_ne {a c : Char} {tl cs : List Char} (hc : c ≠ a) :
    startsWithL (a :: tl) (c :: cs) = false := by
  simp only [startsWithL, Bool.and_eq_false_iff, decide_eq_false_iff_not]
  exact Or.inl (fun he => hc he.symm)

theorem searchFrom_none_of_not_mem {α : Type} {a : Char} {tl : List Char}
    {m : List Char → Option α} :
    ∀ {cs : List Char}, (∀ c ∈ cs, c ≠ a) → searchFrom (a :: tl) m cs = none
  | [], _ => by simp [searchFrom, startsWithL]
  | c :: cs, h => by
    have hc : c ≠ a := h c (List.mem_cons_self c cs)
    have ih := @searchFrom_none_of_not_mem α a tl m cs
      (fun x hx => h x (List.mem_cons_of_mem _ hx))
    simp [searchFrom, startsWithL_false_of_head_ne hc, ih]

theorem startsWithL_nil_eq {tok : List Char} (h : startsWithL tok [] = true) : tok = [] := by
  cases tok with
  | nil => rfl
  | cons t ts => simp [startsWithL] at h

theorem hasSubL_nil_tok (cs : List Char) : hasSubL [] cs = true := by
  cases cs <;> simp [hasSubL, startsWithL]

theorem splitOnCharL_first_prefix {sep : Char} :
    ∀ {cs t : List Char} {ts : List (List Char)},
      splitOnCharL sep cs = t :: ts → ∃ rest, cs = t ++ rest := by
  intro cs
  induction cs with
  | nil =>
    intro t ts h
    simp only [splitOnCharL] at h
    exact ⟨[], by simp [(List.cons.injEq .. ▸ h).1.symm]⟩
  | cons c cs ih =>
    intro t ts h
    by_cases hc : c = sep
    · simp only [splitOnCharL, hc, if_true] at h
      exact ⟨c :: cs, by simp [(List.cons.injEq .. ▸ h).1.symm]⟩
    · simp only [splitOnCharL, hc, if_false] at h
      cases hs : splitOnCharL sep cs with
      | nil => exact absurd hs (splitOnCharL_ne_nil sep cs)
      | cons t2 ts2 =>
        rw [hs] at h
        obtain ⟨he, _⟩ := List.cons.injEq .. ▸ h
        obtain ⟨rest, hr⟩ := ih hs
        exact ⟨rest, by rw [← he, hr]; rfl⟩

theorem hasSubL_piece {tok : List Char} {sep : Char} :
    ∀ {cs p : List Char}, p ∈ splitOnCharL sep cs → hasSubL tok p = true →
      hasSubL tok cs = true := by
  intro cs
  induction cs with
  | nil =>
    intro p hp hs
    simp only [splitOnCharL, List.mem_singleton] at hp
    subst hp
    exact hs
  | cons c cs ih =>
    intro p hp hs
    by_cases hc : c = sep
    · simp only [splitOnCharL, hc, if_true, List.mem_cons] at hp
      rcases hp with hp | hp
      · subst hp
        have : tok = [] := startsWithL_nil_eq (by simpa [hasSubL] using hs)
        subst this
        exact hasSubL_nil_tok _
      · exact hasSubL_cons_of c (ih hp hs)
    · simp only [splitOnCharL, hc, if_false] at hp
      cases hq : splitOnCharL sep cs with
      | nil => exact absurd hq (splitOnCharL_ne_nil sep cs)
      | cons t2 ts2 =>
        rw [hq] at hp
        rcases List.mem_cons.mp hp with hp | hp
        · subst hp
          have hs2 : startsWithL tok (c :: t2) = true ∨ hasSubL tok t2 = true := by
            have h3 := hs
            simp only [hasSubL, Bool.or_eq_true] at h3
            exact h3
          rcases hs2 with hsw | hrest
          · obtain ⟨rest, hr⟩ := splitOnCharL_first_prefix hq
            have hsw2 : startsWithL tok ((c :: t2) ++ rest) = true := startsWithL_extend hsw rest
            have hcs : c :: cs = (c :: t2) ++ rest := by rw [hr]; rfl
            rw [hcs]
            exact hasSubL_of_startsWith hsw2
          · exact hasSubL_cons_of c (ih (hq ▸ List.mem_cons_self t2 ts2) hrest)
        · exact hasSubL_cons_of c (ih (hq ▸ List.mem_cons_of_mem t2 hp) hs)

theorem pySplitWsL_length_le : ∀ (ms : Nat) (cs : List Char),
    (pySplitWsL ms cs).length ≤ ms + 1 := by
  intro ms
  induction ms with
  | zero =>
    intro cs
    rw [pySplitWsL.eq_def]
    cases h : cs.dropWhile pyWS <;> simp [h]
  | succ m ih =>
    intro cs
    rw [pySplitWsL.eq_def]
    cases h : cs.dropWhile pyWS with
    | nil => simp [h]
    | cons c rest =>
      simp only [h, List.length_cons]
      have := ih ((c :: rest).dropWhile (fun x => !(pyWS x)))
      omega

theorem fixedParts_length : ∀ (ws : List Nat) (pos : Nat) (cs : List Char),
    (SlurmClient.fixedParts ws pos cs).length = ws.length
  | [], _, _ => rfl
  | w :: ws, pos, cs => by
    unfold SlurmClient.fixedParts
    split <;> simp [fixedParts_length ws _ cs]

theorem insertLE_perm {α : Type} (le : α → α → Bool) (a : α) :
    ∀ (l : List α), (SlurmDashboard.insertLE le a l).Perm (a :: l)
  | [] => List.Perm.refl _
  | b :: bs => by
    unfold SlurmDashboard.insertLE
    split
    · exact List.Perm.refl _
    · exact ((insertLE_perm le a bs).cons b).trans (List.Perm.swap a b bs)

theorem stableSort_perm {α : Type} (le : α → α → Bool) :
    ∀ (l : List α), (SlurmDashboard.stableSort le l).Perm l
  | [] => List.Perm.refl _
  | a :: as =>
    (insertLE_perm le a (SlurmDashboard.stableSort le as)).trans ((stableSort_perm le as).cons a)

theorem mem_insertLE {α : Type} (le : α → α → Bool) {x a : α} {l : List α}
    (h : x ∈ SlurmDashboard.insertLE le a l) : x = a ∨ x ∈ l := by
  have h2 := (insertLE_perm le a l).mem_iff.mp h
  simpa using h2

theorem insertLE_pairwise {α : Type} (le : α → α → Bool)
    (htot : ∀ a b, le a b = true ∨ le b a = true)
    (htrans : ∀ a b c, le a b = true → le b c = true → le a c = true) (a : α) :
    ∀ {l : List α}, l.Pairwise (fun x y => le x y = true) →
      (SlurmDashboard.insertLE le a l).Pairwise (fun x y => le x y = true)
  | [], _ => by simp [SlurmDashboard.insertLE]
  | b :: bs, h => by
    obtain ⟨hb, hbs⟩ := List.pairwise_cons.mp h
    unfold SlurmDashboard.insertLE
    split
    · rename_i hab
      refine List.pairwise_cons.mpr ⟨?_, h⟩
      intro x hx
      rcases List.mem_cons.mp hx with he | hm
      · subst he; exact hab
      · exact htrans a b x hab (hb x hm)
    · rename_i hab
      have hba : le b a = true := (htot a b).resolve_left hab
      refine List.pairwise_cons.mpr ⟨?_, insertLE_pairwise le htot htrans a hbs⟩
      intro x hx
      rcases mem_insertLE le hx with he | hm
      · subst he; exact hba
      · exact hb x hm

theorem stableSort_pairwise {α : Type} (le : α → α → Bool)
    (htot : ∀ a b, le a b = true ∨ le b a = true)
    (htrans : ∀ a b c, le a b = true → le b c = true → le a c = true) :
    ∀ (l : List α), (SlurmDashboard.stableSort le l).Pairwise (fun x y => le x y = true)
  | [] => List.Pairwise.nil
  | a :: as =>
    insertLE_pairwise le htot htrans a (stableSort_pairwise le htot htrans as)

theorem sorted_perm_eq {α : Type} (le : α → α → Bool) :
    ∀ {l₁ l₂ : List α}, l₁.Perm l₂ →
      (∀ a ∈ l₁, ∀ b ∈ l₁, le a b = true → le b a = true → a = b) →
      l₁.Pairwise (fun x y => le x y = true) → l₂.Pairwise (fun x y => le x y = true) →
      l₁ = l₂ := by
  intro l₁
  induction l₁ with
  | nil =>
    intro l₂ hp _ _ _
    exact (hp.symm.eq_nil).symm
  | cons a t₁ ih =>
    intro l₂ hp hanti hs₁ hs₂
    cases l₂ with
    | nil => exact absurd hp.eq_nil (by simp)
    | cons b t₂ =>
      have hab : a = b := by
        by_cases he : a = b
        · exact he
        · have ha2 : a ∈ b :: t₂ := hp.mem_iff.mp (List.mem_cons_self a t₁)
          have ha3 : a ∈ t₂ := by
            rcases List.mem_cons.mp ha2 with h1 | h1
            · exact absurd h1 he
            · exact h1
          have hb1 : b ∈ a :: t₁ := hp.symm.mem_iff.mp (List.mem_cons_self b t₂)
          have hb2 : b ∈ t₁ := by
            rcases List.mem_cons.mp hb1 with h1 | h1
            · exact absurd h1.symm he
            · exact h1
          have h₁ : le a b = true := (List.pairwise_cons.mp hs₁).1 b hb2
          have h₂ : le b a = true := (List.pairwise_cons.mp hs₂).1 a ha3
          exact hanti a (List.mem_cons_self a t₁) b (List.mem_cons_of_mem _ hb2) h₁ h₂
      subst hab
      have hp2 : t₁.Perm t₂ := hp.cons_inv
      have ht := ih hp2
        (fun x hx y hy => hanti x (List.mem_cons_of_mem _ hx) y (List.mem_cons_of_mem _ hy))
        (List.pairwise_cons.mp hs₁).2 (List.pairwise_cons.mp hs₂).2
      rw [ht]

theorem charLE_total : ∀ (a b : List Char),
    SlurmDashboard.charLE a b = true ∨ SlurmDashboard.charLE b a = true
  | [], _ => Or.inl rfl
  | _ :: _, [] => Or.inr rfl
  | a :: as, b :: bs => by
    rcases lt_trichotomy a b with h | h | h
    · exact Or.inl (by simp [SlurmDashboard.charLE, h])
    · subst h
      rcases charLE_total as bs with h2 | h2
      · exact Or.inl (by simp [SlurmDashboard.charLE, lt_irrefl, h2])
      · exact Or.inr (by simp [SlurmDashboard.charLE, lt_irrefl, h2])
    · exact Or.inr (by simp [SlurmDashboard.charLE, h])

theorem charLE_trans : ∀ (a b c : List Char),
    SlurmDashboard.charLE a b = true → SlurmDashboard.charLE b c = true →
      SlurmDashboard.charLE a c = true
  | [], _, _, _, _ => rfl
  | _ :: _, [], _, h, _ => by simp [SlurmDashboard.charLE] at h
  | _ :: _, _ :: _, [], _, h => by simp [SlurmDashboard.charLE] at h
  | a :: as, b :: bs, c :: cs, h1, h2 => by
    by_cases hab : a < b
    · by_cases hbc : b < c
      · simp [SlurmDashboard.charLE, lt_trans hab hbc]
      · by_cases hcb : c < b
        · simp [SlurmDashboard.charLE, hbc, hcb] at h2
        · have he : b = c := by
            rcases lt_trichotomy b c with h | h | h
            · exact absurd h hbc
            · exact h
            · exact absurd h hcb
          subst he
          simp [SlurmDashboard.charLE, hab]
    · by_cases hba : b < a
      · simp [SlurmDashboard.charLE, hab, hba] at h1
      · have he : a = b := by
          rcases lt_trichotomy a b with h | h | h
          · exact absurd h hab
          · exact h
          · exact absurd h hba
        subst he
        simp only [SlurmDashboard.charLE, lt_irrefl, if_false] at h1
        by_cases hac : a < c
        · simp [SlurmDashboard.charLE, hac]
        · by_cases hca : c < a
          · simp [SlurmDashboard.charLE, hac, hca] at h2
          · have he2 : a = c := by
              rcases lt_trichotomy a c with h | h | h
              · exact absurd h hac
              · exact h
              · exact absurd h hca
            subst he2
            simp only [SlurmDashboard.charLE, lt_irrefl, if_false] at h2 ⊢
            exact charLE_trans as bs cs h1 h2

theorem charLE_antisymm : ∀ (a b : List Char),
    SlurmDashboard.charLE a b = true → SlurmDashboard.charLE b a = true → a = b
  | [], [], _, _ => rfl
  | [], _ :: _, _, h => by simp [SlurmDashboard.charLE] at h
  | _ :: _, [], h, _ => by simp [SlurmDashboard.charLE] at h
  | a :: as, b :: bs, h1, h2 => by
    by_cases hab : a < b
    · simp [SlurmDashboard.charLE, lt_asymm hab, hab] at h2
    · by_cases hba : b < a
      · simp [SlurmDashboard.charLE, hab, hba] at h1
      · have he : a = b := by
          rcases lt_trichotomy a b with h | h | h
          · exact absurd h hab
          · exact h
          · exact absurd h hba
        subst he
        simp only [SlurmDashboard.charLE, lt_irrefl, if_false] at h1 h2
        rw [charLE_antisymm as bs h1 h2]

theorem toList_inj {a b : String} (h : a.toList = b.toList) : a = b := by
  rw [← strMk_toList a, ← strMk_toList b, h]

theorem skeyLE_total (x y : SlurmDashboard.SKey) :
    SlurmDashboard.skeyLE x y = true ∨ SlurmDashboard.skeyLE y x = true := by
  cases x with
  | num a =>
    cases y with
    | num b => simpa [SlurmDashboard.skeyLE] using Int.le_total a b
    | str t => simp [SlurmDashboard.skeyLE]
  | str s =>
    cases y with
    | num b => simp [SlurmDashboard.skeyLE]
    | str t => exact charLE_total s.toList t.toList

theorem skeyLE_trans (x y z : SlurmDashboard.SKey)
    (h1 : SlurmDashboard.skeyLE x y = true) (h2 : SlurmDashboard.skeyLE y z = true) :
    SlurmDashboard.skeyLE x z = true := by
  cases x with
  | num a =>
    cases z with
    | str t => simp [SlurmDashboard.skeyLE]
    | num c =>
      cases y with
      | str t => simp [SlurmDashboard.skeyLE] at h2
      | num b =>
        simp only [SlurmDashboard.skeyLE, decide_eq_true_eq] at h1 h2 ⊢
        exact Int.le_trans h1 h2
  | str s =>
    cases y with
    | num b => simp [SlurmDashboard.skeyLE] at h1
    | str t =>
      cases z with
      | num c => simp [SlurmDashboard.skeyLE] at h2
      | str u =>
        simp only [SlurmDashboard.skeyLE] at h1 h2 ⊢
        exact charLE_trans _ _ _ h1 h2

theorem skeyLE_antisymm (x y : SlurmDashboard.SKey)
    (h1 : SlurmDashboard.skeyLE x y = true) (h2 : SlurmDashboard.skeyLE y x = true) :
    x = y := by
  cases x with
  | num a =>
    cases y with
    | str t => simp [SlurmDashboard.skeyLE] at h2
    | num b =>
      simp only [SlurmDashboard.skeyLE, decide_eq_true_eq] at h1 h2
      rw [Int.le_antisymm h1 h2]
  | str s =>
    cases y with
    | num b => simp [SlurmDashboard.skeyLE] at h1
    | str t =>
      simp only [SlurmDashboard.skeyLE] at h1 h2
      rw [toList_inj (charLE_antisymm _ _ h1 h2)]

theorem isNumCell_iff (s : String) :
    SlurmDashboard.isNumCell s = true ↔ ∃ n, SlurmDashboard.sort_key s = .num n := by
  unfold SlurmDashboard.isNumCell SlurmDashboard.sort_key
  cases h : pyInt (pyStrip s) with
  | none => simp
  | some n => simp

theorem userPass_eq (f : Widgets.Filter) (rows : List Widgets.Rec) :
    Widgets.userPass f rows = rows.filter (Widgets.gatedUser f) := by
  unfold Widgets.userPass Widgets.gatedUser
  cases f.user with
  | none => simp [List.filter_true]
  | some u =>
    by_cases h : u = ""
    · simp [h, List.filter_true]
    · simp [h]

theorem partitionPass_eq (f : Widgets.Filter) (rows : List Widgets.Rec) :
    Widgets.partitionPass f rows = rows.filter (Widgets.gatedPartition f) := by
  unfold Widgets.partitionPass Widgets.gatedPartition
  cases f.partition with
  | none => simp [List.filter_true]
  | some p =>
    by_cases h : p = ""
    · simp [h, List.filter_true]
    · simp [h]

theorem statePass_eq (f : Widgets.Filter) (rows : List Widgets.Rec) :
    Widgets.statePass f rows = rows.filter (Widgets.gatedState f) := by
  unfold Widgets.statePass Widgets.gatedState
  cases f.state with
  | none => simp [List.filter_true]
  | some st =>
    by_cases h : st = ""
    · simp [h, List.filter_true]
    · simp [h]

theorem textPass_eq (f : Widgets.Filter) (rows : List Widgets.Rec) :
    Widgets.textPass f rows = rows.filter (Widgets.gatedText f) := by
  unfold Widgets.textPass Widgets.gatedText
  by_cases h : f.text = ""
  · simp [h, List.filter_true]
  · simp [h]

theorem apply_jobs_eq_filter (f : Widgets.Filter) (rows : List Widgets.Rec) :
    Widgets.apply_jobs f rows = rows.filter (Widgets.conjPred f) := by
  unfold Widgets.apply_jobs
  rw [userPass_eq, partitionPass_eq, statePass_eq, textPass_eq,
    List.filter_filter, List.filter_filter, List.filter_filter]
  apply List.filter_congr
  intro r _
  unfold Widgets.conjPred
  cases Widgets.gatedUser f r <;> cases Widgets.gatedPartition f r <;>
    cases Widgets.gatedState f r <;> cases Widgets.gatedText f r <;> rfl

theorem seqFilter_eq_filter_all (rows : List Widgets.Rec)
    (ps : List (Widgets.Rec → Bool)) :
    Widgets.seqFilter rows ps = rows.filter (fun r => ps.all (fun p => p r)) := by
  induction ps generalizing rows with
  | nil => simp [Widgets.seqFilter, List.filter_true]
  | cons p ps ih =>
    have hstep : Widgets.seqFilter rows (p :: ps) = Widgets.seqFilter (rows.filter p) ps := by
      simp [Widgets.seqFilter, List.foldl_cons]
    rw [hstep, ih, List.filter_filter]
    apply List.filter_congr
    intro r _
    simp [List.all_cons, Bool.and_comm]

theorem all_perm_eq {α : Type} {l₁ l₂ : List (α → Bool)} (hp : l₁.Perm l₂) (x : α) :
    l₁.all (fun p => p x) = l₂.all (fun p => p x) := by
  have hiff : (l₁.all (fun p => p x) = true) ↔ (l₂.all (fun p => p x) = true) := by
    simp only [List.all_eq_true]
    constructor
    · intro h q hq; exact h q (hp.mem_iff.mpr hq)
    · intro h q hq; exact h q (hp.mem_iff.mp hq)
  by_cases ha : l₁.all (fun p => p x) = true
  · rw [ha, hiff.mp ha]
  · have hb : ¬ l₂.all (fun p => p x) = true := fun h => ha (hiff.mpr h)
    rw [Bool.not_eq_true] at ha hb
    rw [ha, hb]

theorem passes_all_eq_conj (f : Widgets.Filter) (r : Widgets.Rec) :
    (Widgets.passes f).all (fun p => p r) = Widgets.conjPred f r := by
  simp [Widgets.passes, Widgets.conjPred, Bool.and_assoc]

theorem pathsFold_no_tokens :
    ∀ (lines : List (List Char)) (st : String × String),
      (∀ l ∈ lines, hasSubL SlurmClient.stdoutTok l = false ∧
        hasSubL SlurmClient.stderrTok l = false) →
      lines.foldlM SlurmClient.pathsStep st = Except.ok st
  | [], _, _ => rfl
  | l :: ls, st, h => by
    have hl := h l (List.mem_cons_self l ls)
    have hstep : SlurmClient.pathsStep st l = Except.ok st := by
      unfold SlurmClient.pathsStep
      simp [hl.1, hl.2]
    simp only [List.foldlM_cons, hstep]
    exact pathsFold_no_tokens ls st (fun x hx => h x (List.mem_cons_of_mem _ hx))

theorem ne_empty_of_strip {s : String} (h : pyStrip s ≠ "") : s ≠ "" :=
  fun he => h (by rw [he]; rfl)

theorem length_filter_map_strip (l : List (List Char)) :
    ((l.map stripL).filter (fun n => n ≠ [])).length
      = (l.filter (fun t => stripL t ≠ [])).length := by
  rw [List.filter_map, List.length_map]
  rfl

/-! ## Claim theorems -/

/-- C2: the spec requires that constructing the dashboard application with the
mock-data flag set succeeds, but `main()` passes the keyword argument
`mock_mode` to `SlurmDashboard.__init__`, whose parameter list does not
accept it, so the constructor call raises `TypeError` on startup (the
repository's own tests also expect a `mock_mode` parameter).  The theorem
evaluates the keyword-binding check at the failing call. -/
theorem c2_mock_kwarg_rejected :
    SmonMain.pyKwCallOk SmonMain.dashboardInitParams SmonMain.mainCallKwargs = false
      ∧ "mock_mode" ∈ SmonMain.mainCallKwargs
      ∧ "mock_mode" ∉ SmonMain.dashboardInitParams := by
  refine ⟨rfl, ?_, ?_⟩ <;> decide

/-- C10: `count_nodes_from_nodelist` returns `"0"` for blank input, `"0"`
whenever any pending-reason keyword occurs as a substring anywhere in the
string (also inside a hostname of a comma-separated list), and otherwise the
count of comma-separated tokens that are non-empty after stripping. -/
theorem c10_count_nodes_cases (s : String) :
    (pyStrip s = "" → SlurmClient.count_nodes_from_nodelist s = "0")
    ∧ (SlurmClient.hasPendingReason s = true →
        SlurmClient.count_nodes_from_nodelist s = "0")
    ∧ (pyStrip s ≠ "" → SlurmClient.hasPendingReason s = false →
        SlurmClient.count_nodes_from_nodelist s =
          toString (((splitOnCharL ',' s.toList).filter
            (fun t => stripL t ≠ [])).length)) := by
  refine ⟨?_, ?_, ?_⟩
  · intro h
    unfold SlurmClient.count_nodes_from_nodelist
    rw [if_pos (Or.inr h)]
  · intro h
    unfold SlurmClient.count_nodes_from_nodelist
    by_cases hg : s = "" ∨ pyStrip s = ""
    · rw [if_pos hg]
    · rw [if_neg hg, if_pos h]
  · intro h1 h2
    unfold SlurmClient.count_nodes_from_nodelist
    rw [if_neg (by push_neg; exact ⟨ne_empty_of_strip h1, h1⟩), if_neg (by rw [h2]; simp),
      length_filter_map_strip]

/-- C10 witness: the characterisation applied at concrete inputs, including a
hostname list in which the keyword `Priority` occurs inside a hostname. -/
theorem c10_count_nodes_witness :
    SlurmClient.count_nodes_from_nodelist " " = "0"
    ∧ SlurmClient.count_nodes_from_nodelist "nodePriority1,node2" = "0"
    ∧ SlurmClient.count_nodes_from_nodelist "node01,node02" = "2" :=
  ⟨(c10_count_nodes_cases " ").1 (by decide),
   (c10_count_nodes_cases "nodePriority1,node2").2.1 (by decide),
   (c10_count_nodes_cases "node01,node02").2.2 (by decide) (by decide)⟩

/-- C8: full case characterisation of `combine_nodelist_reason`, reading the
claim's "non-empty" as the source's Python truthiness check (non-blank, i.e.
containing a non-whitespace character): a non-blank nodelist without pending
keyword is returned; otherwise a non-blank reason other than the literal
`"None"` is returned; otherwise a non-blank (keyword-carrying) nodelist is
returned verbatim; otherwise the empty string. -/
theorem c8_combine_cases (nodelist reason : String) :
    (pyStrip nodelist ≠ "" → SlurmClient.hasPendingReason nodelist = false →
      SlurmClient.combine_nodelist_reason nodelist reason = nodelist)
    ∧ ((pyStrip nodelist = "" ∨ SlurmClient.hasPendingReason nodelist = true) →
        pyStrip reason ≠ "" → reason ≠ "None" →
        SlurmClient.combine_nodelist_reason nodelist reason = reason)
    ∧ (pyStrip nodelist ≠ "" → SlurmClient.hasPendingReason nodelist = true →
        (pyStrip reason = "" ∨ reason = "None") →
        SlurmClient.combine_nodelist_reason nodelist reason = nodelist)
    ∧ (pyStrip nodelist = "" → (pyStrip reason = "" ∨ reason = "None") →
        SlurmClient.combine_nodelist_reason nodelist reason = "") := by
  refine ⟨?_, ?_, ?_, ?_⟩
  · intro h1 h2
    unfold SlurmClient.combine_nodelist_reason
    rw [if_pos ⟨⟨ne_empty_of_strip h1, h1⟩, h2⟩]
  · intro hOr h2 h3
    unfold SlurmClient.combine_nodelist_reason
    have hc1 : ¬ ((nodelist ≠ "" ∧ pyStrip nodelist ≠ "") ∧
        SlurmClient.hasPendingReason nodelist = false) := by
      rcases hOr with h | h
      · exact fun hk => hk.1.2 h
      · exact fun hk => by rw [h] at hk; exact (by decide : (true : Bool) ≠ false) hk.2
    rw [if_neg hc1, if_pos ⟨ne_empty_of_strip h2, h2, h3⟩]
  · intro h1 h2 h3
    unfold SlurmClient.combine_nodelist_reason
    have hc1 : ¬ ((nodelist ≠ "" ∧ pyStrip nodelist ≠ "") ∧
        SlurmClient.hasPendingReason nodelist = false) := by
      intro hk
      rw [h2] at hk
      exact (by decide : (true : Bool) ≠ false) hk.2
    have hc2 : ¬ (reason ≠ "" ∧ pyStrip reason ≠ "" ∧ reason ≠ "None") := by
      rcases h3 with h | h
      · exact fun hk => hk.2.1 h
      · exact fun hk => hk.2.2 h
    rw [if_neg hc1, if_neg hc2, if_pos ⟨ne_empty_of_strip h1, h1⟩]
  · intro h1 h3
    unfold SlurmClient.combine_nodelist_reason
    have hc1 : ¬ ((nodelist ≠ "" ∧ pyStrip nodelist ≠ "") ∧
        SlurmClient.hasPendingReason nodelist = false) := fun hk => hk.1.2 h1
    have hc2 : ¬ (reason ≠ "" ∧ pyStrip reason ≠ "" ∧ reason ≠ "None") := by
      rcases h3 with h | h
      · exact fun hk => hk.2.1 h
      · exact fun hk => hk.2.2 h
    have hc3 : ¬ (nodelist ≠ "" ∧ pyStrip nodelist ≠ "") := fun hk => hk.2 h1
    rw [if_neg hc1, if_neg hc2, if_neg hc3]

/-- C8 witness: the four cases at concrete inputs. -/
theorem c8_combine_witness :
    SlurmClient.combine_nodelist_reason "node01" "None" = "node01"
    ∧ SlurmClient.combine_nodelist_reason "" "Resources" = "Resources"
    ∧ SlurmClient.combine_nodelist_reason "(Resources)" "" = "(Resources)"
    ∧ SlurmClient.combine_nodelist_reason "" "None" = "" :=
  ⟨(c8_combine_cases "node01" "None").1 (by decide) (by decide),
   (c8_combine_cases "" "Resources").2.1 (Or.inl (by decide)) (by decide) (by decide),
   (c8_combine_cases "(Resources)" "").2.2.1 (by decide) (by decide) (Or.inl (by decide)),
   (c8_combine_cases "" "None").2.2.2 (by decide) (Or.inr rfl)⟩

/-- C1 (amended): for every job detail text containing no `StdOut=`/`StdErr=`
token, both resolved paths are empty and `get_job_output` performs no file
read, but it returns the mock placeholder pair
`("Mock stdout output for testing", "Mock stderr output for testing")`
rather than `("", "")`. -/
theorem c1_job_output_no_tokens (hs : Bool) (detail : String)
    (tailRes : String → Int × String × String)
    (h1 : strContains detail "StdOut=" = false)
    (h2 : strContains detail "StdErr=" = false) :
    SlurmClient.get_job_output hs detail tailRes =
      Except.ok (("Mock stdout output for testing", "Mock stderr output for testing"), []) := by
  have hpaths : SlurmClient.get_job_output_paths hs detail = Except.ok ("", "") := by
    unfold SlurmClient.get_job_output_paths
    cases hs with
    | false => simp
    | true =>
      rw [if_neg (by simp)]
      apply pathsFold_no_tokens
      intro l hl
      have h1' : hasSubL SlurmClient.stdoutTok detail.toList = false := h1
      have h2' : hasSubL SlurmClient.stderrTok detail.toList = false := h2
      constructor
      · by_contra hc
        rw [Bool.not_eq_false] at hc
        exact Bool.false_ne_true (h1'.symm.trans (hasSubL_piece hl hc))
      · by_contra hc
        rw [Bool.not_eq_false] at hc
        exact Bool.false_ne_true (h2'.symm.trans (hasSubL_piece hl hc))
  unfold SlurmClient.get_job_output
  rw [hpaths]
  simp

/-- C1 counterexample: at the concrete detail text `"JobId=1 UserId=alice"`
(no `StdOut=`/`StdErr=` tokens), `get_job_output` returns the mock pair with
no file read, and that pair is not `("", "")` as the claim states. -/
theorem c1_counterexample :
    SlurmClient.get_job_output true "JobId=1 UserId=alice" (fun _ => (0, "", "")) =
      Except.ok (("Mock stdout output for testing", "Mock stderr output for testing"), [])
    ∧ (("Mock stdout output for testing", "Mock stderr output for testing")
        ≠ (("" : String), ("" : String))) := by
  constructor
  · rfl
  · decide

/-- C1 witness: the amended theorem applied at a concrete detail text. -/
theorem c1_witness :
    SlurmClient.get_job_output true "JobId=77 Partition=gpu" (fun _ => (0, "", "")) =
      Except.ok (("Mock stdout output for testing", "Mock stderr output for testing"), []) :=
  c1_job_output_no_tokens true "JobId=77 Partition=gpu" (fun _ => (0, "", ""))
    (by decide) (by decide)

theorem hasSubL_refl (tok : List Char) : hasSubL tok tok = true := by
  have h := hasSubL_self_append tok []
  rwa [List.append_nil] at h

theorem strContains_append_right (a b : String) : strContains (a ++ b) b = true := by
  unfold strContains
  rw [toList_append]
  exact hasSubL_append_left a.toList (hasSubL_refl b.toList)

/-- C7: `get_jobs` with `squeue` available: a zero primary exit yields the
records parsed from the primary output (no error); a failed primary followed
by a zero fallback exit yields the records parsed from the fallback output;
when both exits are non-zero it raises an error whose message contains the
stripped captured stderr of the fallback invocation. -/
theorem c7_get_jobs_control_flow (primary fallback : Int × String × String) :
    (primary.1 = 0 → SlurmClient.get_jobs true primary fallback =
        Except.ok (SlurmClient.parseJobsOut true primary.2.1))
    ∧ (primary.1 ≠ 0 → fallback.1 = 0 → SlurmClient.get_jobs true primary fallback =
        Except.ok (SlurmClient.parseJobsOut false fallback.2.1))
    ∧ (primary.1 ≠ 0 → fallback.1 ≠ 0 →
        ∃ msg, SlurmClient.get_jobs true primary fallback = Except.error msg ∧
          strContains msg (pyStrip fallback.2.2) = true) := by
  refine ⟨?_, ?_, ?_⟩
  · intro h
    simp [SlurmClient.get_jobs, h]
  · intro h1 h2
    simp [SlurmClient.get_jobs, h1, h2]
  · intro h1 h2
    refine ⟨"squeue failed: " ++
      (if pyStrip fallback.2.2 ≠ "" then pyStrip fallback.2.2 else "unknown error"),
      ?_, ?_⟩
    · simp [SlurmClient.get_jobs, h1, h2]
    · by_cases hX : pyStrip fallback.2.2 = ""
      · rw [if_neg (by simp [hX]), hX]
        exact hasSubL_nil_tok _
      · rw [if_pos hX]
        exact strContains_append_right _ _

/-- C7 witness: the three branches at concrete command results. -/
theorem c7_witness :
    SlurmClient.get_jobs true (0, "", "") (0, "", "") =
      Except.ok (SlurmClient.parseJobsOut true "")
    ∧ SlurmClient.get_jobs true (1, "", "") (0, "a|b|c|d|e|f|g|h", "") =
        Except.ok (SlurmClient.parseJobsOut false "a|b|c|d|e|f|g|h")
    ∧ ∃ msg, SlurmClient.get_jobs true (1, "", "") (1, "", " boom ") = Except.error msg ∧
        strContains msg (pyStrip " boom ") = true :=
  ⟨(c7_get_jobs_control_flow (0, "", "") (0, "", "")).1 rfl,
   (c7_get_jobs_control_flow (1, "", "") (0, "a|b|c|d|e|f|g|h", "")).2.1 (by decide) rfl,
   (c7_get_jobs_control_flow (1, "", "") (1, "", " boom ")).2.2 (by decide) (by decide)⟩

theorem parse_line_decomp (cs : List Char) :
    SlurmClient.parse_squeue_output_lineL cs =
      SlurmClient.fixedParts SlurmClient.squeueWidths 0 cs ++
        (pySplitWsL 2 (stripL (cs.drop (SlurmClient.fixedPos SlurmClient.squeueWidths 0 cs))) ++
          List.replicate
            (3 - (pySplitWsL 2 (stripL (cs.drop
              (SlurmClient.fixedPos SlurmClient.squeueWidths 0 cs)))).length) "") := by
  simp only [SlurmClient.parse_squeue_output_lineL]
  by_cases h : (stripL (cs.drop (SlurmClient.fixedPos SlurmClient.squeueWidths 0 cs))).isEmpty
  · rw [if_pos h]
    have he : stripL (cs.drop (SlurmClient.fixedPos SlurmClient.squeueWidths 0 cs)) = [] :=
      List.isEmpty_iff.mp h
    rw [he]
    rfl
  · rw [if_neg h]
    have h8 : (SlurmClient.fixedParts SlurmClient.squeueWidths 0 cs).length = 8 := by
      rw [fixedParts_length]; rfl
    rw [List.append_assoc, List.length_append, h8]
    have harith : 11 - (8 + (pySplitWsL 2 (stripL (cs.drop
        (SlurmClient.fixedPos SlurmClient.squeueWidths 0 cs)))).length)
        = 3 - (pySplitWsL 2 (stripL (cs.drop
            (SlurmClient.fixedPos SlurmClient.squeueWidths 0 cs)))).length := by
      omega
    rw [harith]

/-- C6: for every input line, the fixed-width primary job-format parser
returns exactly 11 fields: the 8 fixed-width columns (an empty string for
each column starting past the end of the line), followed by the whitespace
split of the remainder taken with `maxsplit=2` (hence at most 3 tokens),
padded with empty strings to exactly 3 trailing fields. -/
theorem c6_parse_line_eleven_fields (line : String) :
    (SlurmClient.parse_squeue_output_line line).length = 11
    ∧ (SlurmClient.parse_squeue_output_line line).take 8 =
        SlurmClient.fixedParts SlurmClient.squeueWidths 0 line.toList
    ∧ (SlurmClient.parse_squeue_output_line line).drop 8 =
        pySplitWsL 2 (stripL (line.toList.drop
            (SlurmClient.fixedPos SlurmClient.squeueWidths 0 line.toList))) ++
          List.replicate
            (3 - (pySplitWsL 2 (stripL (line.toList.drop
              (SlurmClient.fixedPos SlurmClient.squeueWidths 0 line.toList)))).length) ""
    ∧ (pySplitWsL 2 (stripL (line.toList.drop
        (SlurmClient.fixedPos SlurmClient.squeueWidths 0 line.toList)))).length ≤ 3 := by
  have hd := parse_line_decomp line.toList
  have h8 : (SlurmClient.fixedParts SlurmClient.squeueWidths 0 line.toList).length = 8 := by
    rw [fixedParts_length]; rfl
  have htoks := pySplitWsL_length_le 2 (stripL (line.toList.drop
    (SlurmClient.fixedPos SlurmClient.squeueWidths 0 line.toList)))
  refine ⟨?_, ?_, ?_, htoks⟩
  · unfold SlurmClient.parse_squeue_output_line
    rw [hd]
    simp only [List.length_append, List.length_replicate, h8]
    omega
  · unfold SlurmClient.parse_squeue_output_line
    rw [hd, ← h8, List.take_left]
  · unfold SlurmClient.parse_squeue_output_line
    rw [hd, ← h8, List.drop_left]

theorem isDigitsL_spec {cs : List Char} (h : isDigitsL cs = true) :
    cs ≠ [] ∧ ∀ c ∈ cs, c.isDigit = true := by
  unfold isDigitsL at h
  rw [Bool.and_eq_true] at h
  constructor
  · intro he
    rw [he] at h
    simp at h
  · exact List.all_eq_true.mp h.2

theorem ne_of_mem_not_mem {s t : String} {c : Char} (hc : c ∈ s.toList)
    (hn : c ∉ t.toList) : s ≠ t := fun he => hn (he ▸ hc)

/-- C5 (amended): the three well-formed digit shapes evaluate to the expected
total seconds and the literal sentinels map to `-1`; the negative clause
holds only in the weaker form that every non-sentinel input outside the
relaxed grammar accepted by Python `int` field parsing (optional
sign/whitespace, two or three colon fields) returns `-1` — a string outside
the three strict shapes but inside that relaxed grammar, such as `"+1:02"`,
returns its parsed value instead of the `-1` the original claim requires
(and an in-grammar input may still compute `-1` arithmetically, e.g. with a
negative seconds field, so no exactness is asserted). -/
theorem c5_parse_time_cases :
    (∀ dd hh mm ss : String,
      isDigitsL dd.toList = true → isDigitsL hh.toList = true →
      isDigitsL mm.toList = true → isDigitsL ss.toList = true →
      SlurmClient.parse_time_to_seconds (dd ++ "-" ++ hh ++ ":" ++ mm ++ ":" ++ ss) =
        (digitsToNat dd.toList : Int) * 86400 + (digitsToNat hh.toList : Int) * 3600 +
          (digitsToNat mm.toList : Int) * 60 + (digitsToNat ss.toList : Int))
    ∧ (∀ hh mm ss : String,
      isDigitsL hh.toList = true → isDigitsL mm.toList = true →
      isDigitsL ss.toList = true →
      SlurmClient.parse_time_to_seconds (hh ++ ":" ++ mm ++ ":" ++ ss) =
        (digitsToNat hh.toList : Int) * 3600 + (digitsToNat mm.toList : Int) * 60 +
          (digitsToNat ss.toList : Int))
    ∧ (∀ mm ss : String,
      isDigitsL mm.toList = true → isDigitsL ss.toList = true →
      SlurmClient.parse_time_to_seconds (mm ++ ":" ++ ss) =
        (digitsToNat mm.toList : Int) * 60 + (digitsToNat ss.toList : Int))
    ∧ (SlurmClient.parse_time_to_seconds "UNLIMITED" = -1
        ∧ SlurmClient.parse_time_to_seconds "INVALID" = -1
        ∧ SlurmClient.parse_time_to_seconds "Partition_Limit" = -1
        ∧ SlurmClient.parse_time_to_seconds "" = -1)
    ∧ (∀ s : String, specialTime s = false → relaxedTimeOk s = false →
        SlurmClient.parse_time_to_seconds s = -1) := by
  have hdashL : ("-" : String).toList = ['-'] := rfl
  have hcolL : (":" : String).toList = [':'] := rfl
  refine ⟨?_, ?_, ?_, ⟨rfl, rfl, rfl, rfl⟩, ?_⟩
  · intro dd hh mm ss hd0 hh0 hm0 hs0
    obtain ⟨hdne, hdall⟩ := isDigitsL_spec hd0
    obtain ⟨hhne, hhall⟩ := isDigitsL_spec hh0
    obtain ⟨hmne, hmall⟩ := isDigitsL_spec hm0
    obtain ⟨hsne, hsall⟩ := isDigitsL_spec hs0
    have hddash : ∀ c ∈ dd.toList, c ≠ '-' :=
      fun c hc => char_ne_of_isDigit (hdall c hc) (by decide)
    have hhcol : ∀ c ∈ hh.toList, c ≠ ':' :=
      fun c hc => char_ne_of_isDigit (hhall c hc) (by decide)
    have hmcol : ∀ c ∈ mm.toList, c ≠ ':' :=
      fun c hc => char_ne_of_isDigit (hmall c hc) (by decide)
    have hscol : ∀ c ∈ ss.toList, c ≠ ':' :=
      fun c hc => char_ne_of_isDigit (hsall c hc) (by decide)
    have hlist : (dd ++ "-" ++ hh ++ ":" ++ mm ++ ":" ++ ss).toList =
        dd.toList ++ '-' :: (hh.toList ++ ':' :: (mm.toList ++ ':' :: ss.toList)) := by
      simp [toList_append, hdashL, hcolL, List.append_assoc]
    have hmem : ':' ∈ (dd ++ "-" ++ hh ++ ":" ++ mm ++ ":" ++ ss).toList := by
      rw [hlist]; simp
    have hguard : ¬((dd ++ "-" ++ hh ++ ":" ++ mm ++ ":" ++ ss) = "" ∨
        (dd ++ "-" ++ hh ++ ":" ++ mm ++ ":" ++ ss) = "UNLIMITED" ∨
        (dd ++ "-" ++ hh ++ ":" ++ mm ++ ":" ++ ss) = "INVALID" ∨
        (dd ++ "-" ++ hh ++ ":" ++ mm ++ ":" ++ ss) = "Partition_Limit") := by
      push_neg
      exact ⟨ne_of_mem_not_mem hmem (by decide), ne_of_mem_not_mem hmem (by decide),
        ne_of_mem_not_mem hmem (by decide), ne_of_mem_not_mem hmem (by decide)⟩
    have hsf := splitFirstL_append (hh.toList ++ ':' :: (mm.toList ++ ':' :: ss.toList)) hddash
    have hc1 := splitOnCharL_append (mm.toList ++ ':' :: ss.toList) hhcol
    have hc2 := splitOnCharL_append ss.toList hmcol
    have hc3 := splitOnCharL_of_no_sep hscol
    unfold SlurmClient.parse_time_to_seconds
    rw [if_neg hguard]
    simp only [hlist, hsf, pyIntL_digits hdne hdall, hc1, hc2, hc3,
      pyIntL_digits hhne hhall, pyIntL_digits hmne hmall, pyIntL_digits hsne hsall]
  · intro hh mm ss hh0 hm0 hs0
    obtain ⟨hhne, hhall⟩ := isDigitsL_spec hh0
    obtain ⟨hmne, hmall⟩ := isDigitsL_spec hm0
    obtain ⟨hsne, hsall⟩ := isDigitsL_spec hs0
    have hhcol : ∀ c ∈ hh.toList, c ≠ ':' :=
      fun c hc => char_ne_of_isDigit (hhall c hc) (by decide)
    have hmcol : ∀ c ∈ mm.toList, c ≠ ':' :=
      fun c hc => char_ne_of_isDigit (hmall c hc) (by decide)
    have hscol : ∀ c ∈ ss.toList, c ≠ ':' :=
      fun c hc => char_ne_of_isDigit (hsall c hc) (by decide)
    have hlist : (hh ++ ":" ++ mm ++ ":" ++ ss).toList =
        hh.toList ++ ':' :: (mm.toList ++ ':' :: ss.toList) := by
      simp [toList_append, hcolL, List.append_assoc]
    have hmem : ':' ∈ (hh ++ ":" ++ mm ++ ":" ++ ss).toList := by
      rw [hlist]; simp
    have hguard : ¬((hh ++ ":" ++ mm ++ ":" ++ ss) = "" ∨
        (hh ++ ":" ++ mm ++ ":" ++ ss) = "UNLIMITED" ∨
        (hh ++ ":" ++ mm ++ ":" ++ ss) = "INVALID" ∨
        (hh ++ ":" ++ mm ++ ":" ++ ss) = "Partition_Limit") := by
      push_neg
      exact ⟨ne_of_mem_not_mem hmem (by decide), ne_of_mem_not_mem hmem (by decide),
        ne_of_mem_not_mem hmem (by decide), ne_of_mem_not_mem hmem (by decide)⟩
    have hnodash : ∀ c ∈ hh.toList ++ ':' :: (mm.toList ++ ':' :: ss.toList), c ≠ '-' := by
      intro c hc
      rcases List.mem_append.mp hc with h | h
      · exact char_ne_of_isDigit (hhall c h) (by decide)
      · rcases List.mem_cons.mp h with h | h
        · subst h; decide
        · rcases List.mem_append.mp h with h | h
          · exact char_ne_of_isDigit (hmall c h) (by decide)
          · rcases List.mem_cons.mp h with h | h
            · subst h; decide
            · exact char_ne_of_isDigit (hsall c h) (by decide)
    have hsf := splitFirstL_of_no_sep hnodash
    have hc1 := splitOnCharL_append (mm.toList ++ ':' :: ss.toList) hhcol
    have hc2 := splitOnCharL_append ss.toList hmcol
    have hc3 := splitOnCharL_of_no_sep hscol
    unfold SlurmClient.parse_time_to_seconds
    rw [if_neg hguard]
    simp only [hlist, hsf, hc1, hc2, hc3,
      pyIntL_digits hhne hhall, pyIntL_digits hmne hmall, pyIntL_digits hsne hsall]
    ring
  · intro mm ss hm0 hs0
    obtain ⟨hmne, hmall⟩ := isDigitsL_spec hm0
    obtain ⟨hsne, hsall⟩ := isDigitsL_spec hs0
    have hmcol : ∀ c ∈ mm.toList, c ≠ ':' :=
      fun c hc => char_ne_of_isDigit (hmall c hc) (by decide)
    have hscol : ∀ c ∈ ss.toList, c ≠ ':' :=
      fun c hc => char_ne_of_isDigit (hsall c hc) (by decide)
    have hlist : (mm ++ ":" ++ ss).toList = mm.toList ++ ':' :: ss.toList := by
      simp [toList_append, hcolL, List.append_assoc]
    have hmem : ':' ∈ (mm ++ ":" ++ ss).toList := by
      rw [hlist]; simp
    have hguard : ¬((mm ++ ":" ++ ss) = "" ∨ (mm ++ ":" ++ ss) = "UNLIMITED" ∨
        (mm ++ ":" ++ ss) = "INVALID" ∨ (mm ++ ":" ++ ss) = "Partition_Limit") := by
      push_neg
      exact ⟨ne_of_mem_not_mem hmem (by decide), ne_of_mem_not_mem hmem (by decide),
        ne_of_mem_not_mem hmem (by decide), ne_of_mem_not_mem hmem (by decide)⟩
    have hnodash : ∀ c ∈ mm.toList ++ ':' :: ss.toList, c ≠ '-' := by
      intro c hc
      rcases List.mem_append.mp hc with h | h
      · exact char_ne_of_isDigit (hmall c h) (by decide)
      · rcases List.mem_cons.mp h with h | h
        · subst h; decide
        · exact char_ne_of_isDigit (hsall c h) (by decide)
    have hsf := splitFirstL_of_no_sep hnodash
    have hc2 := splitOnCharL_append ss.toList hmcol
    have hc3 := splitOnCharL_of_no_sep hscol
    unfold SlurmClient.parse_time_to_seconds
    rw [if_neg hguard]
    simp only [hlist, hsf, hc2, hc3,
      pyIntL_digits hmne hmall, pyIntL_digits hsne hsall]
    ring
  · intro s hspec hrel
    have hguard : ¬(s = "" ∨ s = "UNLIMITED" ∨ s = "INVALID" ∨ s = "Partition_Limit") := by
      unfold specialTime at hspec
      simp only [Bool.or_eq_false_iff, decide_eq_false_iff_not] at hspec
      push_neg
      exact ⟨hspec.1.1.1, hspec.1.1.2, hspec.1.2, hspec.2⟩
    unfold SlurmClient.parse_time_to_seconds
    rw [if_neg hguard]
    unfold relaxedTimeOk at hrel
    cases hsf : splitFirstL '-' s.toList with
    | none =>
      simp only [hsf] at hrel
      simp only [hsf]
      unfold relaxedTimeFields at hrel
      cases hsp2 : splitOnCharL ':' s.toList with
      | nil => simp [hsp2]
      | cons a rest =>
        simp only [hsp2] at hrel
        cases rest with
        | nil => simp [hsp2]
        | cons b rest2 =>
          cases rest2 with
          | nil =>
            simp only [hsp2]
            cases ha : pyIntL a with
            | none => simp [ha]
            | some x =>
              cases hb : pyIntL b with
              | none => simp [ha, hb]
              | some y => simp only [ha, hb] at hrel; simp at hrel
          | cons cf rest3 =>
            cases rest3 with
            | nil =>
              simp only [hsp2]
              cases ha : pyIntL a with
              | none => simp [ha]
              | some x =>
                cases hb : pyIntL b with
                | none => simp [ha, hb]
                | some y =>
                  cases hc : pyIntL cf with
                  | none => simp [ha, hb, hc]
                  | some z => simp only [ha, hb, hc] at hrel; simp at hrel
            | cons _ _ => simp [hsp2]
    | some pr =>
      obtain ⟨d, t⟩ := pr
      simp only [hsf] at hrel
      simp only [hsf]
      cases hd : pyIntL d with
      | none => simp [hd]
      | some days =>
        simp only [hd, Option.isSome_some, Bool.true_and] at hrel
        simp only [hd]
        unfold relaxedTimeFields at hrel
        cases hsp2 : splitOnCharL ':' t with
        | nil => simp [hsp2]
        | cons a rest =>
          simp only [hsp2] at hrel
          cases rest with
          | nil => simp [hsp2]
          | cons b rest2 =>
            cases rest2 with
            | nil =>
              simp only [hsp2]
              cases ha : pyIntL a with
              | none => simp [ha]
              | some x =>
                cases hb : pyIntL b with
                | none => simp [ha, hb]
                | some y => simp only [ha, hb] at hrel; simp at hrel
            | cons cf rest3 =>
              cases rest3 with
              | nil =>
                simp only [hsp2]
                cases ha : pyIntL a with
                | none => simp [ha]
                | some x =>
                  cases hb : pyIntL b with
                  | none => simp [ha, hb]
                  | some y =>
                    cases hc : pyIntL cf with
                    | none => simp [ha, hb, hc]
                    | some z => simp only [ha, hb, hc] at hrel; simp at hrel
              | cons _ _ => simp [hsp2]

/-- C5 counterexample: the string `"+1:02"` matches none of the three shapes
`D-HH:MM:SS` / `HH:MM:SS` / `MM:SS` (its first field carries a sign), yet
`parse_time_to_seconds` returns `62`, not the `-1` required by the claim for
every string outside the three shapes. -/
theorem c5_counterexample :
    SlurmClient.parse_time_to_seconds "+1:02" = 62 ∧ timeShapeAny "+1:02" = false := by
  constructor <;> decide

/-- C5 witness: the amended theorem applied at concrete inputs. -/
theorem c5_witness :
    SlurmClient.parse_time_to_seconds "1-02:03:04" = 93784
    ∧ SlurmClient.parse_time_to_seconds "garbage" = -1 := by
  constructor
  · have h := c5_parse_time_cases.1 "1" "02" "03" "04"
      (by decide) (by decide) (by decide) (by decide)
    have h2 : ("1" ++ "-" ++ "02" ++ ":" ++ "03" ++ ":" ++ "04" : String) = "1-02:03:04" := by
      decide
    rw [h2] at h
    rw [h]; decide
  · exact c5_parse_time_cases.2.2.2.2 "garbage" (by decide) (by decide)

theorem mWordColonDigits_word_digits {ty n : List Char} (htyne : ty ≠ [])
    (htyw : ∀ c ∈ ty, isWordChar c = true) (hnne : n ≠ [])
    (hnd : ∀ c ∈ n, c.isDigit = true) :
    mWordColonDigits (ty ++ ':' :: n) = some (String.mk n) := by
  simp only [mWordColonDigits]
  have hw : (ty ++ ':' :: n).takeWhile isWordChar = ty := by
    rw [takeWhile_append_all _ htyw]
    simp [List.takeWhile_cons, isWordChar]
  rw [hw]
  rw [if_neg (by simp [List.isEmpty_iff, htyne])]
  rw [List.drop_left]
  show (if (n.takeWhile Char.isDigit).isEmpty = true then none
    else some (String.mk (n.takeWhile Char.isDigit))) = some (String.mk n)
  rw [takeWhile_eq_self_of_all hnd]
  rw [if_neg (by simp [List.isEmpty_iff, hnne])]

theorem mWordColonDigits_digits_only {n : List Char} (hnd : ∀ c ∈ n, c.isDigit = true) :
    mWordColonDigits n = none := by
  simp only [mWordColonDigits]
  rw [takeWhile_eq_self_of_all (fun c hc => isWordChar_of_isDigit (hnd c hc))]
  by_cases hne : n.isEmpty
  · rw [if_pos hne]
  · rw [if_neg hne, List.drop_length]

theorem mDigits_all {n : List Char} (hnne : n ≠ []) (hnd : ∀ c ∈ n, c.isDigit = true) :
    mDigits n = some (String.mk n) := by
  simp only [mDigits]
  rw [takeWhile_eq_self_of_all hnd, if_neg (by simp [List.isEmpty_iff, hnne])]

/-- C4 counterexample: the claim says GPU-count extraction from a node GRES
string strips parenthetical suffixes before matching, so that
`"gpu:(null):8(IDX:0-7)"` yields the count 8; but the client's
`parse_node_gpu_info` (which is the routine that tries `gpu:<type>:<N>` then
`gpu:<N>`) performs no such stripping and returns `"0"` on that input. -/
theorem c4_counterexample :
    SlurmClient.parse_node_gpu_info "gpu:(null):8(IDX:0-7)" = "0"
    ∧ (("0" : String) ≠ "8") := by
  constructor <;> decide

/-- C4 (amended): two distinct extraction routines exist.  The client's
`parse_node_gpu_info` tries `gpu:<type>:<N>` then `gpu:<N>` (proved on all
well-formed inputs of those two shapes), maps `(null)`, `N/A`, `-` and the
empty string to `"0"`, but does not strip parenthetical suffixes (it returns
`"0"` on `"gpu:(null):8(IDX:0-7)"`).  The dashboard's `_parse_gpu_count`
strips `(IDX:...)`/`(S:...)` groups and takes the last all-digit colon field,
yielding 8 on `"gpu:(null):8(IDX:0-7)"` and `"gpu:8(S:0-1)"`, and 0 on the
null sentinels. -/
theorem c4_gpu_count_routines :
    (∀ ty n : String, ty.toList ≠ [] → (∀ c ∈ ty.toList, isWordChar c = true) →
      n.toList ≠ [] → (∀ c ∈ n.toList, Char.isDigit c = true) →
      SlurmClient.parse_node_gpu_info ("gpu:" ++ ty ++ ":" ++ n) = n)
    ∧ (∀ n : String, n.toList ≠ [] → (∀ c ∈ n.toList, Char.isDigit c = true) →
      SlurmClient.parse_node_gpu_info ("gpu:" ++ n) = n)
    ∧ (SlurmClient.parse_node_gpu_info "(null)" = "0"
        ∧ SlurmClient.parse_node_gpu_info "N/A" = "0"
        ∧ SlurmClient.parse_node_gpu_info "-" = "0"
        ∧ SlurmClient.parse_node_gpu_info "" = "0"
        ∧ SlurmClient.parse_node_gpu_info "gpu:(null):8(IDX:0-7)" = "0")
    ∧ (SlurmDashboard.parse_gpu_count "gpu:(null):8(IDX:0-7)" = 8
        ∧ SlurmDashboard.parse_gpu_count "gpu:8(S:0-1)" = 8
        ∧ SlurmDashboard.parse_gpu_count "gpu:h100:8" = 8
        ∧ SlurmDashboard.parse_gpu_count "gpu:8" = 8
        ∧ SlurmDashboard.parse_gpu_count "(null)" = 0
        ∧ SlurmDashboard.parse_gpu_count "-" = 0
        ∧ SlurmDashboard.parse_gpu_count "N/A" = 0
        ∧ SlurmDashboard.parse_gpu_count "" = 0) := by
  have hgpuL : ("gpu:" : String).toList = ['g', 'p', 'u', ':'] := rfl
  have hcolL : (":" : String).toList = [':'] := rfl
  refine ⟨?_, ?_, by refine ⟨?_, ?_, ?_, ?_, ?_⟩ <;> decide,
    by refine ⟨?_, ?_, ?_, ?_, ?_, ?_, ?_, ?_⟩ <;> decide⟩
  · intro ty n htyne htyw hnne hnd
    have hlist : ("gpu:" ++ ty ++ ":" ++ n).toList =
        'g' :: 'p' :: 'u' :: ':' :: (ty.toList ++ ':' :: n.toList) := by
      simp [toList_append, hgpuL, hcolL, List.append_assoc]
    have hmemg : 'g' ∈ ("gpu:" ++ ty ++ ":" ++ n).toList := by
      rw [hlist]; simp
    have hguard : ¬(("gpu:" ++ ty ++ ":" ++ n) = "" ∨ ("gpu:" ++ ty ++ ":" ++ n) = "(null)" ∨
        ("gpu:" ++ ty ++ ":" ++ n) = "N/A") := by
      push_neg
      exact ⟨ne_of_mem_not_mem hmemg (by decide), ne_of_mem_not_mem hmemg (by decide),
        ne_of_mem_not_mem hmemg (by decide)⟩
    have hm := mWordColonDigits_word_digits htyne htyw hnne hnd
    have hsearch : searchFrom ("gpu:".toList) mWordColonDigits
        ("gpu:" ++ ty ++ ":" ++ n).toList = some (String.mk n.toList) := by
      rw [hlist]
      apply searchFrom_pos0
      · simp [startsWithL]
      · exact hm
    unfold SlurmClient.parse_node_gpu_info
    rw [if_neg hguard, hsearch, strMk_toList]
  · intro n hnne hnd
    have hlist : ("gpu:" ++ n).toList = 'g' :: 'p' :: 'u' :: ':' :: n.toList := by
      simp [toList_append, hgpuL]
    have hmemg : 'g' ∈ ("gpu:" ++ n).toList := by rw [hlist]; simp
    have hguard : ¬(("gpu:" ++ n) = "" ∨ ("gpu:" ++ n) = "(null)" ∨ ("gpu:" ++ n) = "N/A") := by
      push_neg
      exact ⟨ne_of_mem_not_mem hmemg (by decide), ne_of_mem_not_mem hmemg (by decide),
        ne_of_mem_not_mem hmemg (by decide)⟩
    have hs1 : searchFrom ("gpu:".toList) mWordColonDigits
        ('g' :: 'p' :: 'u' :: ':' :: n.toList) = none := by
      simp only [searchFrom]
      have hsw : startsWithL ("gpu:".toList) ('g' :: 'p' :: 'u' :: ':' :: n.toList) = true := by
        simp [startsWithL]
      rw [hsw]
      simp only [if_true]
      have hdrop : ('g' :: 'p' :: 'u' :: ':' :: n.toList).drop ("gpu:".toList).length
          = n.toList := rfl
      rw [hdrop, mWordColonDigits_digits_only hnd]
      exact searchFrom_none_of_not_mem
        (fun c hc => char_ne_of_isDigit (hnd c hc) (by decide))
    have hs2 : searchFrom ("gpu:".toList) mDigits
        ('g' :: 'p' :: 'u' :: ':' :: n.toList) = some (String.mk n.toList) := by
      apply searchFrom_pos0
      · simp [startsWithL]
      · exact mDigits_all hnne hnd
    unfold SlurmClient.parse_node_gpu_info
    rw [if_neg hguard, hlist, hs1, hs2, strMk_toList]

/-- C4 witness: the two pattern lemmas of the amended theorem applied at
concrete GRES strings. -/
theorem c4_witness :
    SlurmClient.parse_node_gpu_info "gpu:a100:4" = "4"
    ∧ SlurmClient.parse_node_gpu_info "gpu:16" = "16" := by
  constructor
  · have h := c4_gpu_count_routines.1 "a100" "4" (by decide) (by decide) (by decide) (by decide)
    have h2 : ("gpu:" ++ "a100" ++ ":" ++ "4" : String) = "gpu:a100:4" := by decide
    rw [h2] at h
    exact h
  · have h := c4_gpu_count_routines.2.1 "16" (by decide) (by decide)
    have h2 : ("gpu:" ++ "16" : String) = "gpu:16" := by decide
    rw [h2] at h
    exact h

theorem leAsc_total (a b : String) :
    SlurmDashboard.leAsc a b = true ∨ SlurmDashboard.leAsc b a = true :=
  skeyLE_total _ _

theorem leAsc_trans (a b c : String) (h1 : SlurmDashboard.leAsc a b = true)
    (h2 : SlurmDashboard.leAsc b c = true) : SlurmDashboard.leAsc a c = true :=
  skeyLE_trans _ _ _ h1 h2

theorem leDesc_total (a b : String) :
    SlurmDashboard.leDesc a b = true ∨ SlurmDashboard.leDesc b a = true :=
  skeyLE_total _ _

theorem leDesc_trans (a b c : String) (h1 : SlurmDashboard.leDesc a b = true)
    (h2 : SlurmDashboard.leDesc b c = true) : SlurmDashboard.leDesc a c = true :=
  skeyLE_trans _ _ _ h2 h1

theorem keys_ne_symm :
    Symmetric (fun a b : String => SlurmDashboard.sort_key a ≠ SlurmDashboard.sort_key b) :=
  fun _ _ h he => h he.symm

theorem leAsc_anti_of_keys {rows : List String}
    (hk : rows.Pairwise (fun a b => SlurmDashboard.sort_key a ≠ SlurmDashboard.sort_key b))
    {a b : String} (ha : a ∈ rows) (hb : b ∈ rows)
    (h1 : SlurmDashboard.leAsc a b = true) (h2 : SlurmDashboard.leAsc b a = true) : a = b := by
  by_cases he : a = b
  · exact he
  · exact absurd (skeyLE_antisymm _ _ h1 h2)
      (List.Pairwise.forall keys_ne_symm hk ha hb he)

theorem leDesc_anti_of_keys {rows : List String}
    (hk : rows.Pairwise (fun a b => SlurmDashboard.sort_key a ≠ SlurmDashboard.sort_key b))
    {a b : String} (ha : a ∈ rows) (hb : b ∈ rows)
    (h1 : SlurmDashboard.leDesc a b = true) (h2 : SlurmDashboard.leDesc b a = true) : a = b := by
  by_cases he : a = b
  · exact he
  · exact absurd (skeyLE_antisymm _ _ h2 h1)
      (List.Pairwise.forall keys_ne_symm hk ha hb he)

/-- C3 (amended): on an integer column, when the sort keys of the rows are
pairwise distinct, the descending sort is the exact reversal of the ascending
sort (so a toggle inverts the row order exactly, also when the second sort
re-sorts the already-sorted rows); integer-parsing cells come before all
non-parsing cells in the ascending direction, but after them in the
descending direction (not after them in both directions as claimed); with
tied keys the toggle need not invert exactly (stable sort). -/
theorem c3_sort_toggle (rows : List String)
    (hk : rows.Pairwise (fun a b => SlurmDashboard.sort_key a ≠ SlurmDashboard.sort_key b)) :
    SlurmDashboard.sortColumn true rows = (SlurmDashboard.sortColumn false rows).reverse
    ∧ SlurmDashboard.sortColumn false (SlurmDashboard.sortColumn true rows)
        = (SlurmDashboard.sortColumn true rows).reverse
    ∧ (SlurmDashboard.sortColumn false rows).Pairwise
        (fun a b => SlurmDashboard.isNumCell b = true → SlurmDashboard.isNumCell a = true)
    ∧ (SlurmDashboard.sortColumn true rows).Pairwise
        (fun a b => SlurmDashboard.isNumCell a = true → SlurmDashboard.isNumCell b = true) := by
  have hpermD : (SlurmDashboard.stableSort SlurmDashboard.leDesc rows).Perm rows :=
    stableSort_perm _ rows
  have hpermA : (SlurmDashboard.stableSort SlurmDashboard.leAsc rows).Perm rows :=
    stableSort_perm _ rows
  have hsD := stableSort_pairwise SlurmDashboard.leDesc leDesc_total leDesc_trans rows
  have hsA := stableSort_pairwise SlurmDashboard.leAsc leAsc_total leAsc_trans rows
  have himpA : ∀ {a b : String}, SlurmDashboard.leAsc a b = true →
      (SlurmDashboard.isNumCell b = true → SlurmDashboard.isNumCell a = true) := by
    intro a b h hb
    obtain ⟨nb, hkb⟩ := (isNumCell_iff b).mp hb
    cases hka : SlurmDashboard.sort_key a with
    | num na => exact (isNumCell_iff a).mpr ⟨na, hka⟩
    | str sa =>
      exfalso
      unfold SlurmDashboard.leAsc at h
      rw [hka, hkb] at h
      simp [SlurmDashboard.skeyLE] at h
  have himpD : ∀ {a b : String}, SlurmDashboard.leDesc a b = true →
      (SlurmDashboard.isNumCell a = true → SlurmDashboard.isNumCell b = true) := by
    intro a b h ha
    obtain ⟨na, hka⟩ := (isNumCell_iff a).mp ha
    cases hkb : SlurmDashboard.sort_key b with
    | num nb => exact (isNumCell_iff b).mpr ⟨nb, hkb⟩
    | str sb =>
      exfalso
      unfold SlurmDashboard.leDesc at h
      rw [hka, hkb] at h
      simp [SlurmDashboard.skeyLE] at h
  simp only [SlurmDashboard.sortColumn, if_true, if_false]
  refine ⟨?_, ?_, ?_, ?_⟩
  · apply sorted_perm_eq SlurmDashboard.leDesc
    · exact hpermD.trans (hpermA.symm.trans (List.reverse_perm _).symm)
    · intro a ha b hb h1 h2
      exact leDesc_anti_of_keys hk (hpermD.mem_iff.mp ha) (hpermD.mem_iff.mp hb) h1 h2
    · exact hsD
    · exact List.pairwise_reverse.mpr hsA
  · apply sorted_perm_eq SlurmDashboard.leAsc
    · exact (stableSort_perm _ _).trans (List.reverse_perm _).symm
    · intro a ha b hb h1 h2
      have ha2 : a ∈ rows :=
        hpermD.mem_iff.mp ((stableSort_perm SlurmDashboard.leAsc _).mem_iff.mp ha)
      have hb2 : b ∈ rows :=
        hpermD.mem_iff.mp ((stableSort_perm SlurmDashboard.leAsc _).mem_iff.mp hb)
      exact leAsc_anti_of_keys hk ha2 hb2 h1 h2
    · exact stableSort_pairwise SlurmDashboard.leAsc leAsc_total leAsc_trans _
    · exact List.pairwise_reverse.mpr hsD
  · exact hsA.imp (fun h => himpA h)
  · exact hsD.imp (fun h => himpD h)

/-- C3 counterexample: with tied integer keys (`"1"` and `"01"` both parse to
1) the toggle does not invert the order (stable sort keeps it), and in the
descending direction the non-parsing value `"x"` is placed before the
parsing value `"2"`, contradicting "non-parsing values after parsing values
in both directions". -/
theorem c3_counterexample :
    (SlurmDashboard.sortColumn false (SlurmDashboard.sortColumn true ["1", "01"])
        ≠ (SlurmDashboard.sortColumn true ["1", "01"]).reverse)
    ∧ SlurmDashboard.sortColumn true ["2", "x"] = ["x", "2"]
    ∧ SlurmDashboard.isNumCell "x" = false
    ∧ SlurmDashboard.isNumCell "2" = true := by
  refine ⟨?_, ?_, ?_, ?_⟩ <;> decide

/-- C3 witness: the amended theorem at rows with pairwise-distinct keys. -/
theorem c3_witness :
    SlurmDashboard.sortColumn true ["2", "10", "x"]
        = (SlurmDashboard.sortColumn false ["2", "10", "x"]).reverse
    ∧ SlurmDashboard.sortColumn false (SlurmDashboard.sortColumn true ["2", "10", "x"])
        = (SlurmDashboard.sortColumn true ["2", "10", "x"]).reverse
    ∧ (SlurmDashboard.sortColumn false ["2", "10", "x"]).Pairwise
        (fun a b => SlurmDashboard.isNumCell b = true → SlurmDashboard.isNumCell a = true)
    ∧ (SlurmDashboard.sortColumn true ["2", "10", "x"]).Pairwise
        (fun a b => SlurmDashboard.isNumCell a = true → SlurmDashboard.isNumCell b = true) :=
  c3_sort_toggle ["2", "10", "x"] (by decide)

/-- C9: applying the four job-filter passes in any order (any permutation of
the user / partition / state / free-text passes) yields exactly the same
surviving records as a single filter with the conjunction of all four
predicates, and `apply_jobs` (the source order) equals that same single
filter. -/
theorem c9_filter_order_independent (f : Widgets.Filter) (rows : List Widgets.Rec)
    (ps : List (Widgets.Rec → Bool)) (hp : ps.Perm (Widgets.passes f)) :
    Widgets.seqFilter rows ps = rows.filter (Widgets.conjPred f)
    ∧ Widgets.apply_jobs f rows = rows.filter (Widgets.conjPred f) := by
  constructor
  · rw [seqFilter_eq_filter_all]
    apply List.filter_congr
    intro r _
    rw [all_perm_eq hp r, passes_all_eq_conj]
  · exact apply_jobs_eq_filter f rows

/-- C9 witness: a permuted pass order (partition pass first) on a concrete
two-record list with a user filter. -/
theorem c9_witness :
    Widgets.seqFilter
      [[("JOBID", "1"), ("USERNAME", "alice"), ("STATE", "RUNNING"), ("PARTITION", "gpu")],
       [("JOBID", "2"), ("USERNAME", "bob"), ("STATE", "PENDING"), ("PARTITION", "cpu")]]
      [Widgets.gatedPartition ⟨"", some "alice", none, none⟩,
       Widgets.gatedUser ⟨"", some "alice", none, none⟩,
       Widgets.gatedState ⟨"", some "alice", none, none⟩,
       Widgets.gatedText ⟨"", some "alice", none, none⟩]
      = List.filter (Widgets.conjPred ⟨"", some "alice", none, none⟩)
          [[("JOBID", "1"), ("USERNAME", "alice"), ("STATE", "RUNNING"), ("PARTITION", "gpu")],
           [("JOBID", "2"), ("USERNAME", "bob"), ("STATE", "PENDING"), ("PARTITION", "cpu")]]
    ∧ Widgets.apply_jobs ⟨"", some "alice", none, none⟩
        [[("JOBID", "1"), ("USERNAME", "alice"), ("STATE", "RUNNING"), ("PARTITION", "gpu")],
         [("JOBID", "2"), ("USERNAME", "bob"), ("STATE", "PENDING"), ("PARTITION", "cpu")]]
      = List.filter (Widgets.conjPred ⟨"", some "alice", none, none⟩)
          [[("JOBID", "1"), ("USERNAME", "alice"), ("STATE", "RUNNING"), ("PARTITION", "gpu")],
           [("JOBID", "2"), ("USERNAME", "bob"), ("STATE", "PENDING"), ("PARTITION", "cpu")]] :=
  c9_filter_order_independent ⟨"", some "alice", none, none⟩
    [[("JOBID", "1"), ("USERNAME", "alice"), ("STATE", "RUNNING"), ("PARTITION", "gpu")],
     [("JOBID", "2"), ("USERNAME", "bob"), ("STATE", "PENDING"), ("PARTITION", "cpu")]]
    [Widgets.gatedPartition ⟨"", some "alice", none, none⟩,
     Widgets.gatedUser ⟨"", some "alice", none, none⟩,
     Widgets.gatedState ⟨"", some "alice", none, none⟩,
     Widgets.gatedText ⟨"", some "alice", none, none⟩]
    (List.Perm.swap _ _ _)
